import Mathlib

/-!
BloodHound analysis pipeline: a verification development.

Shallow embedding of parts of the BloodHound repository.

* `datapipe`: `RunAnalysisOperations` of
  `cmd/api/src/daemons/datapipe/analysis.go`.  The passes it calls live in
  other packages; they are taken as an environment of state transformers
  over an abstract store state `σ`, each returning the new state and its
  error value (`none` is Go's `nil`).  The run is instrumented with the
  ordered trace of the calls it makes.
* `ad`: the traversals and derived-edge passes of `packages/go/analysis/ad`
  that `cmd/api/src/analysis/ad/ad_integration_test.go` exercises.  Their
  sources are not available, so they are modelled from the
  specification over a small property graph (nodes with a kind and the
  `blocksinheritance` property, typed relationships with the `enforced`
  property); node sets are duplicate-free lists of node identities.
* `strings`, `graph`, `graphschema`: the Go string functions, the node and
  property-bag types of the graph library and the schema names that the
  code below relies on.
* `agi`: `FetchAssetGroupNodes` and `RunAssetGroupIsolationCollections` of
  `cmd/api/src/services/agi/agi.go`, over a store that answers each call
  with a result or an error; the run records its store calls.
* `config`: `NewDefaultConfiguration` of `cmd/api/src/config/default.go`.
* `golang`: `BuildMainPackages` and `buildModuleMainPackages` of
  `packages/go/stbernard/workspace/golang/build.go`, with the commands run.
* `lab`: the set type that `packages/go/lab/internal/set_test.go` exercises,
  as map references on an explicit heap.
* `model`: `Permission.Equals`, `Permissions.Equals` and
  `Roles.FindByPermissions` of `cmd/api/src/model/auth.go`.
-/

namespace datapipe

/-- The two sentinel errors of `analysis.go`; Go's `nil` result is `none`. -/
inductive AnalysisError where
  | ErrAnalysisFailed
  | ErrAnalysisPartiallyCompleted
  deriving DecidableEq, Repr

/-- The passes `RunAnalysisOperations` calls, in source order. -/
inductive Pass where
  | FixWellKnownNodeTypes
  | RunDomainAssociations
  | LinkWellKnownNodes
  | TagAssetGroupsAndTierZero
  | ADPost
  | AzurePost
  | RunAssetGroupIsolationCollections
  | SaveDataQuality
  deriving DecidableEq, Repr

/-- The feature-flag keys looked up with `db.GetFlagByKey`. -/
inductive FlagKey where
  | FeatureAdcs
  | FeatureNTLMPostProcessing
  deriving DecidableEq, Repr

/-- The part of `appcfg.FeatureFlag` the function reads. -/
structure FeatureFlag where
  Enabled : Bool
  deriving DecidableEq, Repr

/-- One observable step of a run: a pass call or a feature-flag lookup,
with whether it returned an error. -/
inductive Event where
  | pass (p : Pass) (failed : Bool)
  | flagLookup (k : FlagKey) (failed : Bool)
  deriving DecidableEq, Repr

/-- The collaborators of `RunAnalysisOperations`.  Error values are their
messages. -/
structure Env (σ : Type) where
  GetTieringEnabled : σ → Bool
  FixWellKnownNodeTypes : σ → σ × Option String
  RunDomainAssociations : σ → σ × Option String
  LinkWellKnownNodes : σ → σ × Option String
  TagAssetGroupsAndTierZero : σ → σ × List String
  GetFlagByKey : FlagKey → σ → Except String FeatureFlag
  GetCitrixRDPSupport : σ → Bool
  ADPost : Bool → Bool → Bool → σ → σ × Option String
  AzurePost : σ → σ × Option String
  RunAssetGroupIsolationCollections : σ → σ × Option String
  SaveDataQuality : σ → σ × Option String

/-- What a run leaves behind: the store state, the trace of calls, the
collected errors, the lines written with `slog.ErrorContext`, and the
returned error. -/
structure Run (σ : Type) where
  state : σ
  trace : List Event
  collectedErrors : List String
  logged : List String
  result : Option AnalysisError

/-- The outcome of one `if err := pass(...); err != nil` statement: the
wrapped error appended to `collectedErrors`, if any. -/
def wrapErr (msg : String) : Option String → List String
  | some err => [msg ++ err]
  | none => []

/-- The AD block of `RunAnalysisOperations` (the `if / else if / else if`
chain over the two flag lookups and `ad.Post`): new state, events, collected
errors and `adFailed`.  The composition counter handed to `ad.Post` is fresh
in every run and is read by nothing else, so it stays inside `ADPost`. -/
def adBlock {σ : Type} (env : Env σ) (s : σ) : σ × List Event × List String × Bool :=
  match env.GetFlagByKey FlagKey.FeatureAdcs s with
  | Except.error err =>
      (s, [Event.flagLookup FlagKey.FeatureAdcs true],
        ["error retrieving ADCS feature flag: " ++ err], false)
  | Except.ok adcsFlag =>
    match env.GetFlagByKey FlagKey.FeatureNTLMPostProcessing s with
    | Except.error err =>
        (s, [Event.flagLookup FlagKey.FeatureAdcs false,
             Event.flagLookup FlagKey.FeatureNTLMPostProcessing true],
          ["error retrieving NTLM Post Processing feature flag: " ++ err], false)
    | Except.ok ntlmFlag =>
      match env.ADPost adcsFlag.Enabled (env.GetCitrixRDPSupport s) ntlmFlag.Enabled s with
      | (s', some err) =>
          (s', [Event.flagLookup FlagKey.FeatureAdcs false,
                Event.flagLookup FlagKey.FeatureNTLMPostProcessing false,
                Event.pass Pass.ADPost true],
            ["error during ad post: " ++ err], true)
      | (s', none) =>
          (s', [Event.flagLookup FlagKey.FeatureAdcs false,
                Event.flagLookup FlagKey.FeatureNTLMPostProcessing false,
                Event.pass Pass.ADPost false],
            [], false)

/-- The `if !tieringEnabled { ... }` block: new state, events, collected
errors and `agiFailed`. -/
def agiBlock {σ : Type} (env : Env σ) (tieringEnabled : Bool) (s : σ) :
    σ × List Event × List String × Bool :=
  if !tieringEnabled then
    match env.RunAssetGroupIsolationCollections s with
    | (s', some err) =>
        (s', [Event.pass Pass.RunAssetGroupIsolationCollections true],
          ["asset group isolation collection failed: " ++ err], true)
    | (s', none) =>
        (s', [Event.pass Pass.RunAssetGroupIsolationCollections false], [], false)
  else (s, [], [], false)

/-- The final `if / else if / return nil` of `RunAnalysisOperations`. -/
def analysisStatus (adFailed azureFailed agiFailed dataQualityFailed : Bool) :
    Option AnalysisError :=
  if adFailed && azureFailed && agiFailed && dataQualityFailed then
    some AnalysisError.ErrAnalysisFailed
  else if adFailed || azureFailed || agiFailed || dataQualityFailed then
    some AnalysisError.ErrAnalysisPartiallyCompleted
  else none

/-- `RunAnalysisOperations(ctx, db, graphDB, _)` of `analysis.go`. -/
def RunAnalysisOperations {σ : Type} (env : Env σ) (s0 : σ) : Run σ :=
  let tieringEnabled := env.GetTieringEnabled s0
  let r1 := env.FixWellKnownNodeTypes s0
  let r2 := env.RunDomainAssociations r1.1
  let r3 := env.LinkWellKnownNodes r2.1
  let r4 := env.TagAssetGroupsAndTierZero r3.1
  let c4 :=
    wrapErr "fix well known node types failed: " r1.2 ++
    wrapErr "domain association and pruning failed: " r2.2 ++
    wrapErr "well known group linking failed: " r3.2 ++
    r4.2.map (fun err => "tagging asset groups and tier zero failed: " ++ err)
  let t4 :=
    [Event.pass Pass.FixWellKnownNodeTypes r1.2.isSome,
     Event.pass Pass.RunDomainAssociations r2.2.isSome,
     Event.pass Pass.LinkWellKnownNodes r3.2.isSome,
     Event.pass Pass.TagAssetGroupsAndTierZero (decide (0 < r4.2.length))]
  let r5 := adBlock env r4.1
  let adFailed := r5.2.2.2
  let r6 := env.AzurePost r5.1
  let azureFailed := r6.2.isSome
  let r7 := agiBlock env tieringEnabled r6.1
  let agiFailed := r7.2.2.2
  let r8 := env.SaveDataQuality r7.1
  let dataQualityFailed := r8.2.isSome
  let collectedErrors := c4 ++ r5.2.2.1 ++ wrapErr "error during azure post: " r6.2 ++
    r7.2.2.1 ++ wrapErr "error saving data quality stat: " r8.2
  { state := r8.1
    trace := t4 ++ r5.2.1 ++ [Event.pass Pass.AzurePost azureFailed] ++ r7.2.1 ++
      [Event.pass Pass.SaveDataQuality dataQualityFailed]
    collectedErrors := collectedErrors
    logged := collectedErrors.map (fun err => "Analysis error encountered: " ++ err)
    result := analysisStatus adFailed azureFailed agiFailed dataQualityFailed }

/-- Pass `p` was invoked in the run and returned an error. -/
def returnedError {σ : Type} (r : Run σ) (p : Pass) : Prop :=
  Event.pass p true ∈ r.trace

instance {σ : Type} (r : Run σ) (p : Pass) : Decidable (returnedError r p) :=
  inferInstanceAs (Decidable (Event.pass p true ∈ r.trace))

/-- The pass an event is a call of, if it is one. -/
def Event.calledPass : Event → Option Pass
  | Event.pass p _ => some p
  | Event.flagLookup _ _ => none

/-- The passes invoked by a run, in order of invocation. -/
def passesInvoked {σ : Type} (r : Run σ) : List Pass :=
  r.trace.filterMap Event.calledPass

/-- The lookup of feature flag `k` was made in the run and succeeded. -/
def flagLookupSucceeded {σ : Type} (r : Run σ) (k : FlagKey) : Prop :=
  Event.flagLookup k false ∈ r.trace

instance {σ : Type} (r : Run σ) (k : FlagKey) : Decidable (flagLookupSucceeded r k) :=
  inferInstanceAs (Decidable (Event.flagLookup k false ∈ r.trace))

/-- The pipeline order of the specification. -/
def pipelineOrder : List Pass :=
  [Pass.FixWellKnownNodeTypes, Pass.RunDomainAssociations, Pass.LinkWellKnownNodes,
   Pass.TagAssetGroupsAndTierZero, Pass.ADPost, Pass.AzurePost,
   Pass.RunAssetGroupIsolationCollections, Pass.SaveDataQuality]

/-- A scripted environment over the trivial store: the outcome of every
collaborator is fixed in advance. -/
def scriptedEnv (tiering : Bool) (fix dom link : Option String) (tag : List String)
    (adcs ntlm : Except String FeatureFlag) (ad azure agi dq : Option String) : Env Unit where
  GetTieringEnabled := fun _ => tiering
  FixWellKnownNodeTypes := fun s => (s, fix)
  RunDomainAssociations := fun s => (s, dom)
  LinkWellKnownNodes := fun s => (s, link)
  TagAssetGroupsAndTierZero := fun s => (s, tag)
  GetFlagByKey := fun k _ => match k with
    | FlagKey.FeatureAdcs => adcs
    | FlagKey.FeatureNTLMPostProcessing => ntlm
  GetCitrixRDPSupport := fun _ => false
  ADPost := fun _ _ _ s => (s, ad)
  AzurePost := fun s => (s, azure)
  RunAssetGroupIsolationCollections := fun s => (s, agi)
  SaveDataQuality := fun s => (s, dq)

end datapipe

namespace ad

/-- Node kinds of the AD graph schema that the modelled traversals meet. -/
inductive Kind where
  | User | Computer | Group | OU | Domain | GPO | Container
  deriving DecidableEq, Repr

/-- Relationship kinds: the collected kinds the traversals follow and the
derived kinds the post-processing passes write. -/
inductive RelKind where
  | Contains | GPLink | MemberOf | TrustedBy | AdminTo | CanRDP | SQLAdmin | HasSession
  | DCSync | SyncLAPSPassword | Owns | WriteOwner | GPOAppliesTo | CanApplyGPO | HasTrustKeys
  deriving DecidableEq, Repr

/-- A node: identity, kinds and the `blocksinheritance` property. -/
structure Node where
  id : Nat
  kinds : List Kind
  blocksInheritance : Bool
  deriving DecidableEq, Repr

/-- A directed relationship `startID -[kind]-> endID`; `enforced` is the
`enforced` property of a GPLink (false on every other kind). -/
structure Relationship where
  startID : Nat
  endID : Nat
  kind : RelKind
  enforced : Bool
  deriving DecidableEq, Repr

/-- The property graph. -/
structure Graph where
  nodes : List Node
  relationships : List Relationship
  deriving Repr

/-- Pagination of the list fetchers: `skip` results are dropped, then at most
`limit` are kept; limit `0` is unbounded, so `0, 0` returns everything. -/
def applySkipLimit (skip limit : Nat) (xs : List Nat) : List Nat :=
  if limit = 0 then xs.drop skip else (xs.drop skip).take limit

/-- The `blocksinheritance` property of node `id` (false when absent). -/
def blocksInheritance (g : Graph) (id : Nat) : Bool :=
  g.nodes.any (fun n => n.id == id && n.blocksInheritance)

/-- The container holding node `id`: the start of its inbound `Contains`
relationship. -/
def parentOf (g : Graph) (id : Nat) : Option Nat :=
  (g.relationships.find? (fun r => r.kind == RelKind.Contains && r.endID == id)).map
    (fun r => r.startID)

/-- The containers above `id`, nearest first, following `Contains` upward
for at most `fuel` steps. -/
def ancestors (g : Graph) : Nat → Nat → List Nat
  | 0, _ => []
  | fuel + 1, id =>
    match parentOf g id with
    | none => []
    | some p => p :: ancestors g fuel p

/-- The containment chain above the anchor up to the root.  Every upward
step follows one `Contains` relationship, so a chain without a containment
cycle has at most `relationships.length` steps. -/
def containmentChain (g : Graph) (anchor : Nat) : List Nat :=
  ancestors g g.relationships.length anchor

/-- The GPOs linked to `container` that apply below it: through an enforced
GPLink always, through an unenforced one only when not `blocked`. -/
def linkedGPOs (g : Graph) (container : Nat) (blocked : Bool) : List Nat :=
  (g.relationships.filter (fun r =>
    r.kind == RelKind.GPLink && r.endID == container && (r.enforced || !blocked))).map
    (fun r => r.startID)

/-- The upward walk over a containment chain: at each level the GPLinks are
checked, then the level's own `blocksinheritance` blocks unenforced links of
the levels above it. -/
def walkUp (g : Graph) : Bool → List Nat → List Nat
  | _, [] => []
  | blocked, c :: rest =>
    linkedGPOs g c blocked ++ walkUp g (blocked || blocksInheritance g c) rest

/-- Modelled from the spec: `FetchEnforcedGPOs` of `packages/go/analysis/ad`
is not among the sources (only its tests are).  Spec 4.2: the traversal
"walks container-containment edges upward from the anchor to the domain
root, at each level checking GPLink edges; a GPO reached through an enforced
link is always included; a GPO reached through an unenforced link is
excluded from that point onward if any traversed container has
blocksInheritance = true".  The anchor's own flag is not consulted:
`TestFetchEnforcedGPOsPaths` and
`TestCreateGPOAffectedIntermediariesListDelegateAffectedContainers`
(`ad_integration_test.go`) assert that OU A, which blocks inheritance,
still receives both GPOs linked at its domain.  The result is a node set
(no duplicates). -/
def FetchEnforcedGPOs (g : Graph) (target : Nat) (skip limit : Nat) : List Nat :=
  applySkipLimit skip limit
    (linkedGPOs g target false ++ walkUp g false (containmentChain g target)).dedup

/-- Modelled from the spec: `FetchAllEnforcedGPOs` (absent from the
sources) takes a node set of targets and returns the union of their enforced
GPOs. -/
def FetchAllEnforcedGPOs (g : Graph) (targets : List Nat) : List Nat :=
  (targets.flatMap (fun t => FetchEnforcedGPOs g t 0 0)).dedup

/-- Modelled from the spec: the `GPOEnforcement` test harness (its setup is
absent from the sources), as the spec's scenario and the comments of
`TestFetchEnforcedGPOsPaths` describe it: Domain ⊃ OU A (blocks inheritance)
⊃ OU C ⊃ User C, Domain ⊃ OU B ⊃ OU D ⊃ User D, GPOEnforced linked to the
domain by an enforced GPLink and GPOUnenforced by an unenforced one. -/
structure GPOEnforcementHarness where
  Domain : Nat := 1
  OrganizationalUnitA : Nat := 2
  OrganizationalUnitB : Nat := 3
  OrganizationalUnitC : Nat := 4
  OrganizationalUnitD : Nat := 5
  GPOEnforced : Nat := 6
  GPOUnenforced : Nat := 7
  UserC : Nat := 8
  UserD : Nat := 9

/-- The harness node identities. -/
def GPOEnforcement : GPOEnforcementHarness := {}

/-- The harness graph. -/
def GPOEnforcementGraph : Graph where
  nodes :=
    [⟨GPOEnforcement.Domain, [Kind.Domain], false⟩,
     ⟨GPOEnforcement.OrganizationalUnitA, [Kind.OU], true⟩,
     ⟨GPOEnforcement.OrganizationalUnitB, [Kind.OU], false⟩,
     ⟨GPOEnforcement.OrganizationalUnitC, [Kind.OU], false⟩,
     ⟨GPOEnforcement.OrganizationalUnitD, [Kind.OU], false⟩,
     ⟨GPOEnforcement.GPOEnforced, [Kind.GPO], false⟩,
     ⟨GPOEnforcement.GPOUnenforced, [Kind.GPO], false⟩,
     ⟨GPOEnforcement.UserC, [Kind.User], false⟩,
     ⟨GPOEnforcement.UserD, [Kind.User], false⟩]
  relationships :=
    [⟨GPOEnforcement.GPOUnenforced, GPOEnforcement.Domain, RelKind.GPLink, false⟩,
     ⟨GPOEnforcement.GPOEnforced, GPOEnforcement.Domain, RelKind.GPLink, true⟩,
     ⟨GPOEnforcement.Domain, GPOEnforcement.OrganizationalUnitA, RelKind.Contains, false⟩,
     ⟨GPOEnforcement.Domain, GPOEnforcement.OrganizationalUnitB, RelKind.Contains, false⟩,
     ⟨GPOEnforcement.OrganizationalUnitA, GPOEnforcement.OrganizationalUnitC,
       RelKind.Contains, false⟩,
     ⟨GPOEnforcement.OrganizationalUnitB, GPOEnforcement.OrganizationalUnitD,
       RelKind.Contains, false⟩,
     ⟨GPOEnforcement.OrganizationalUnitC, GPOEnforcement.UserC, RelKind.Contains, false⟩,
     ⟨GPOEnforcement.OrganizationalUnitD, GPOEnforcement.UserD, RelKind.Contains, false⟩]

/-- The members a group holds directly: the starts of its inbound `MemberOf`
relationships. -/
def directMembers (g : Graph) (grp : Nat) : List Nat :=
  (g.relationships.filter (fun r => r.kind == RelKind.MemberOf && r.endID == grp)).map
    (fun r => r.startID)

/-- Breadth-first expansion of group membership.  `frontier` holds the nodes
whose direct members are still to be fetched, `collected` the members
emitted so far; a member already collected is neither emitted nor expanded
again, which is what stops the traversal on a membership cycle. -/
def expandMembers (g : Graph) : Nat → List Nat → List Nat → List Nat
  | 0, _, collected => collected
  | _ + 1, [], collected => collected
  | fuel + 1, n :: frontier, collected =>
    let fresh := (directMembers g n).dedup.filter (fun m => decide (m ∉ collected))
    expandMembers g fuel (frontier ++ fresh) (collected ++ fresh)

/-- Modelled from the spec: `FetchGroupMembers` of `packages/go/analysis/ad`
is not among the sources (only its test is).  Spec 4.2: "transitive closure
over MemberOf/nesting edges; must detect and terminate on cycles (a group
may indirectly contain itself through nested membership) without infinite
recursion or duplicate emission".  Every expansion step either collects a
new start node of some relationship or shortens the frontier, so
`2 * relationships.length + 1` steps are never exhausted. -/
def FetchGroupMembers (g : Graph) (root : Nat) (skip limit : Nat) : List Nat :=
  applySkipLimit skip limit (expandMembers g (2 * g.relationships.length + 1) [root] [])

/-- Node `m` is a direct member of `grp`: a `MemberOf` relationship runs
from `m` to `grp`. -/
def IsMemberOf (g : Graph) (m grp : Nat) : Prop :=
  ∃ r ∈ g.relationships, r.kind = RelKind.MemberOf ∧ r.startID = m ∧ r.endID = grp

/-- The two-group membership cycle of the spec: group A (1) is a member of
group B (2) and B is a member of A. -/
def membershipCycle : Graph where
  nodes := [⟨1, [Kind.Group], false⟩, ⟨2, [Kind.Group], false⟩]
  relationships := [⟨1, 2, RelKind.MemberOf, false⟩, ⟨2, 1, RelKind.MemberOf, false⟩]

/-- Modelled from the spec: the derived-edge passes (`PostDCSync`,
`PostSyncLAPSPassword`, `PostOwnsAndWriteOwner`, the GPO pass and the
trust-key pass) are not among the sources.  Spec 1 and 4.4: a pass computes
derived edges from the base graph; it "first compute[s] a full target edge
set from current graph state, then reconcile[s]: insert edges present in the
new set but absent in the graph, remove derived edges present in the graph
but absent from the new computed set".  A pass is the derived kinds it owns
and its target computation, which is a parameter here. -/
structure DerivedEdgePass where
  kinds : List RelKind
  compute : Graph → List Relationship

/-- The base graph of a pass: the graph without the pass's derived kinds. -/
def DerivedEdgePass.baseGraph (p : DerivedEdgePass) (g : Graph) : Graph :=
  { g with relationships := g.relationships.filter (fun r => decide (r.kind ∉ p.kinds)) }

/-- The derived edges of the pass's kinds that the graph holds. -/
def DerivedEdgePass.derivedEdges (p : DerivedEdgePass) (g : Graph) : List Relationship :=
  g.relationships.filter (fun r => decide (r.kind ∈ p.kinds))

/-- The target edge set: what the pass computes from the base graph, as a
set of edges of its own kinds. -/
def DerivedEdgePass.target (p : DerivedEdgePass) (g : Graph) : List Relationship :=
  ((p.compute (p.baseGraph g)).filter (fun r => decide (r.kind ∈ p.kinds))).dedup

/-- One run of the pass: compute the target set, remove the derived edges
absent from it, insert the target edges absent from the graph. -/
def DerivedEdgePass.run (p : DerivedEdgePass) (g : Graph) : Graph :=
  let target := p.target g
  let kept := g.relationships.filter
    (fun r => decide (r.kind ∉ p.kinds) || decide (r ∈ target))
  let missing := target.filter (fun r => decide (r ∉ g.relationships))
  { g with relationships := kept ++ missing }

/-- The DCSync pass, for a given target computation. -/
def PostDCSync (compute : Graph → List Relationship) : DerivedEdgePass :=
  ⟨[RelKind.DCSync], compute⟩

/-- The SyncLAPSPassword pass. -/
def PostSyncLAPSPassword (compute : Graph → List Relationship) : DerivedEdgePass :=
  ⟨[RelKind.SyncLAPSPassword], compute⟩

/-- The Owns/WriteOwner reconciliation pass. -/
def PostOwnsAndWriteOwner (compute : Graph → List Relationship) : DerivedEdgePass :=
  ⟨[RelKind.Owns, RelKind.WriteOwner], compute⟩

/-- The GPOAppliesTo/CanApplyGPO pass. -/
def PostGPOs (compute : Graph → List Relationship) : DerivedEdgePass :=
  ⟨[RelKind.GPOAppliesTo, RelKind.CanApplyGPO], compute⟩

/-- The HasTrustKeys pass. -/
def PostHasTrustKeys (compute : Graph → List Relationship) : DerivedEdgePass :=
  ⟨[RelKind.HasTrustKeys], compute⟩

end ad

namespace ad

/-- Node `child` lies directly inside `container`: a `Contains` relationship
runs from the container to it. -/
def IsContainedIn (g : Graph) (child container : Nat) : Prop :=
  ∃ r ∈ g.relationships,
    r.kind = RelKind.Contains ∧ r.startID = container ∧ r.endID = child

instance (g : Graph) (child container : Nat) : Decidable (IsContainedIn g child container) :=
  inferInstanceAs (Decidable (∃ r ∈ g.relationships,
    r.kind = RelKind.Contains ∧ r.startID = container ∧ r.endID = child))

/-- Every node has at most one container, as in a directory tree. -/
def SingleContainer (g : Graph) : Prop :=
  ∀ r ∈ g.relationships, ∀ r' ∈ g.relationships,
    r.kind = RelKind.Contains → r'.kind = RelKind.Contains → r.endID = r'.endID →
      r.startID = r'.startID

instance (g : Graph) : Decidable (SingleContainer g) :=
  inferInstanceAs (Decidable (∀ r ∈ g.relationships, ∀ r' ∈ g.relationships,
    r.kind = RelKind.Contains → r'.kind = RelKind.Contains → r.endID = r'.endID →
      r.startID = r'.startID))

/-- Whether node `id` is an organizational unit. -/
def isOU (g : Graph) (id : Nat) : Bool :=
  g.nodes.any (fun n => n.id == id && n.kinds.contains Kind.OU)

end ad

namespace ad

/-- The traversal directions of the graph library. -/
inductive Direction where
  | Inbound
  | Outbound
  deriving DecidableEq, Repr

/-- The nodes one relationship of kind `kind` away from `n` in direction
`d`: the ends of its outbound relationships, or the starts of its inbound
ones. -/
def adjacent (g : Graph) (kind : RelKind) (d : Direction) (n : Nat) : List Nat :=
  match d with
  | Direction.Outbound =>
    (g.relationships.filter (fun r => r.kind == kind && r.startID == n)).map
      (fun r => r.endID)
  | Direction.Inbound =>
    (g.relationships.filter (fun r => r.kind == kind && r.endID == n)).map
      (fun r => r.startID)

/-- Every node identity a relationship of the graph mentions. -/
def endpoints (g : Graph) : List Nat :=
  g.relationships.map (fun r => r.startID) ++ g.relationships.map (fun r => r.endID)

/-- Breadth-first closure under `next`.  `frontier` holds the nodes still to
be expanded, `collected` the nodes emitted so far; a node already collected
is neither emitted nor expanded again. -/
def expandVia (next : Nat → List Nat) : Nat → List Nat → List Nat → List Nat
  | 0, _, collected => collected
  | _ + 1, [], collected => collected
  | fuel + 1, n :: frontier, collected =>
    let fresh := (next n).dedup.filter (fun m => decide (m ∉ collected))
    expandVia next fuel (frontier ++ fresh) (collected ++ fresh)

/-- Domain `a` is trusted by domain `b`: a `TrustedBy` relationship runs
from `a` to `b`. -/
def IsTrustedBy (g : Graph) (a b : Nat) : Prop :=
  ∃ r ∈ g.relationships, r.kind = RelKind.TrustedBy ∧ r.startID = a ∧ r.endID = b

/-- Modelled from the spec: `CreateDomainTrustListDelegate` of
`packages/go/analysis/ad` is not among the sources (only its tests are).
Spec 4.2: "direction-parameterized traversal over TrustedBy edges; inbound
and outbound are logically distinct sets (trust is not assumed symmetric)".
The anchor itself is not listed: `TestCreateDomainTrustListDelegate` finds
Domain B both in the outbound and in the inbound list of Domain A, so A lies
on a trust cycle, and yet the outbound list is exactly B, C and D.  Every
expansion step collects a new endpoint of some relationship or shortens the
frontier, so the fuel is never exhausted. -/
def CreateDomainTrustListDelegate (trustDirection : Direction) (g : Graph) (node : Nat)
    (skip limit : Nat) : List Nat :=
  applySkipLimit skip limit
    ((expandVia (adjacent g RelKind.TrustedBy trustDirection)
      (2 * (endpoints g).length + 1) [node] []).filter (fun m => decide (m ≠ node)))

/-- A two-way trust: domain A (1) is trusted by domain B (2) and B by A. -/
def twoWayTrust : Graph where
  nodes := [⟨1, [Kind.Domain], false⟩, ⟨2, [Kind.Domain], false⟩]
  relationships := [⟨1, 2, RelKind.TrustedBy, false⟩, ⟨2, 1, RelKind.TrustedBy, false⟩]

/-- A one-way trust: domain A (1) is trusted by domain B (2). -/
def oneWayTrust : Graph where
  nodes := [⟨1, [Kind.Domain], false⟩, ⟨2, [Kind.Domain], false⟩]
  relationships := [⟨1, 2, RelKind.TrustedBy, false⟩]

/-- Whether node `id` is a group. -/
def isGroup (g : Graph) (id : Nat) : Bool :=
  g.nodes.any (fun n => n.id == id && n.kinds.contains Kind.Group)

/-- Some holder of an `edge` relationship to `target` is `n` itself or has
`n` as a transitive member. -/
def HoldsThroughMembership (g : Graph) (edge : RelKind) (n target : Nat) : Prop :=
  ∃ h, (∃ r ∈ g.relationships, r.kind = edge ∧ r.startID = h ∧ r.endID = target) ∧
    (n = h ∨ Relation.TransGen (IsMemberOf g) n h)

/-- Modelled from the spec: `CreateInboundLocalGroupListDelegate` of
`packages/go/analysis/ad` is not among the sources (only its tests are).
Spec 4.2: the traversal is "parameterized by an edge kind (e.g., AdminTo,
RDP, SQLAdmin) and direction; ... inbound answers who can administer this
target.  Must expand through nested local groups"; spec 8: "principal in
Group, Group AdminTo Computer ⇒ principal appears".  The holders of an
inbound `edge` relationship are expanded through `MemberOf`; the groups met
on the way are not listed (`TestCreateInboundLocalGroupListDelegate` finds
the two users of Group A and not the group). -/
def CreateInboundLocalGroupListDelegate (edge : RelKind) (g : Graph) (node : Nat)
    (skip limit : Nat) : List Nat :=
  applySkipLimit skip limit
    ((expandVia (directMembers g) (2 * g.relationships.length + 1)
      (adjacent g edge Direction.Inbound node).dedup
      (adjacent g edge Direction.Inbound node).dedup).filter (fun m => !isGroup g m))

/-- A local-group chain: user 1 is a member of group 2, group 2 of group 3,
and group 3 has `AdminTo` on computer 4. -/
def nestedAdminGraph : Graph where
  nodes := [⟨1, [Kind.User], false⟩, ⟨2, [Kind.Group], false⟩, ⟨3, [Kind.Group], false⟩,
    ⟨4, [Kind.Computer], false⟩]
  relationships := [⟨1, 2, RelKind.MemberOf, false⟩, ⟨2, 3, RelKind.MemberOf, false⟩,
    ⟨3, 4, RelKind.AdminTo, false⟩]

end ad

namespace strings

/-- The pieces of a character list around every occurrence of `sep`; the
empty list splits into one empty piece. -/
def splitChars (sep : Char) : List Char → List (List Char)
  | [] => [[]]
  | c :: cs =>
    if c = sep then [] :: splitChars sep cs
    else
      match splitChars sep cs with
      | [] => [[c]]
      | w :: ws => (c :: w) :: ws

/-- Go's `strings.Split(s, sep)` for a one-character separator. -/
def Split (s : String) (sep : Char) : List String :=
  (splitChars sep s.data).map String.mk

/-- Go's `strings.Contains(s, substr)`. -/
def Contains (s substr : String) : Bool :=
  s.data.tails.any (fun t => substr.data.isPrefixOf t)

end strings

namespace graph

/-- A property value: the tagged union of the variants a property bag
holds. -/
inductive PropertyValue where
  | string (s : String)
  | bool (b : Bool)
  | number (n : Int)
  | stringList (l : List String)
  deriving DecidableEq, Repr

/-- A property bag: the key-value map of a node. -/
abbrev Properties := List (String × PropertyValue)

/-- The accessor `Properties.Get(key)`: the value stored under `key`, if
any. -/
def Properties.Get (props : Properties) (key : String) : Option PropertyValue :=
  props.lookup key

/-- The typed accessor `.String()` on a looked-up value: the string, or an
error when the property is absent or holds another variant. -/
def StringOf : Option PropertyValue → Except String String
  | some (PropertyValue.string s) => Except.ok s
  | some _ => Except.error "property is not a string"
  | none => Except.error "property not found"

/-- The string a Go caller holds after `s, _ := value.String()`: the zero
value on error. -/
def StringOrZero (v : Option PropertyValue) : String :=
  match StringOf v with
  | Except.ok s => s
  | Except.error _ => ""

/-- A graph node as the analysis code sees it: identity, kind names and
property bag. -/
structure Node where
  ID : Nat
  Kinds : List String
  Properties : Properties
  deriving DecidableEq, Repr

/-- Whether the node has one of the given kinds (`Kinds.ContainsOneOf`). -/
def Node.ContainsOneOf (n : Node) (kinds : List String) : Bool :=
  kinds.any (fun k => n.Kinds.contains k)

/-- A node set: the nodes of a map keyed by node identity, in iteration
order.  In a node set no two nodes share an identity. -/
abbrev NodeSet := List Node

/-- The method `NodeSet.Remove(id)`. -/
def NodeSet.Remove (s : NodeSet) (id : Nat) : NodeSet :=
  s.filter (fun n => n.ID != id)

end graph

namespace graphschema

/-- Modelled from the spec: the kind and tag constants of
`packages/go/graphschema/ad` (`ad.Computer`, `ad.Group`, `ad.User`,
`ad.OU`, `ad.Domain`, `ad.AdminTierZero`, `ad.DomainSID`) are not among the
sources; these are the names the schema gives them. -/
structure ADNames where
  Computer : String := "Computer"
  Group : String := "Group"
  User : String := "User"
  OU : String := "OU"
  Domain : String := "Domain"
  AdminTierZero : String := "admin_tier_0"
  DomainSID : String := "domainsid"

/-- Modelled from the spec: the property names of
`packages/go/graphschema/common` (`common.SystemTags`, `common.UserTags`,
`common.ObjectID`) are not among the sources; these are the names the
schema gives them. -/
structure CommonNames where
  SystemTags : String := "system_tags"
  UserTags : String := "user_tags"
  ObjectID : String := "objectid"

/-- The AD names of the schema. -/
def ad : ADNames := {}

/-- The common property names of the schema. -/
def common : CommonNames := {}

end graphschema

namespace ad

/-- Modelled from the spec: `SelectGPOContainerCandidateFilter` of
`packages/go/analysis/ad` is not among the sources (only `filters_test.go`
is).  Spec 4.3 names the predicate "is this node an OU-or-Domain
container", evaluated "against already-fetched node properties". -/
def SelectGPOContainerCandidateFilter (node : graph.Node) : Bool :=
  node.ContainsOneOf [graphschema.ad.OU, graphschema.ad.Domain]

/-- Modelled from the spec: `SelectGPOTierZeroCandidateFilter` is not among
the sources.  Spec 4.3 names the predicate "is this node a Tier Zero
principal"; `filters_test.go` has it false on a group tagged Tier Zero and
true on a user tagged Tier Zero. -/
def SelectGPOTierZeroCandidateFilter (node : graph.Node) : Bool :=
  match graph.StringOf (node.Properties.Get graphschema.common.SystemTags) with
  | Except.error _ => false
  | Except.ok tags =>
    strings.Contains tags graphschema.ad.AdminTierZero &&
      !node.ContainsOneOf [graphschema.ad.Group]

/-- The three nodes of `TestSelectGPOContainerCandidateFilter`. -/
def filterTestComputer : graph.Node := ⟨0, [graphschema.ad.Computer], []⟩

/-- The group of the filter test, tagged Tier Zero. -/
def filterTestGroup : graph.Node :=
  ⟨1, [graphschema.ad.Group],
    [(graphschema.common.SystemTags, graph.PropertyValue.string graphschema.ad.AdminTierZero)]⟩

/-- The user of the filter test, tagged Tier Zero. -/
def filterTestUser : graph.Node :=
  ⟨2, [graphschema.ad.User],
    [(graphschema.common.SystemTags, graph.PropertyValue.string graphschema.ad.AdminTierZero)]⟩

end ad

namespace agi

/-- The fields of `model.AssetGroup` that the collection run reads. -/
structure AssetGroup where
  ID : Int
  Tag : String
  SystemGroup : Bool
  deriving DecidableEq, Repr

/-- The field of `model.AssetGroupCollection` that the run sets. -/
structure AssetGroupCollection where
  AssetGroupID : Int
  deriving DecidableEq, Repr

/-- The fields of `model.AssetGroupCollectionEntry` that the run sets. -/
structure AssetGroupCollectionEntry where
  ObjectID : String
  NodeLabel : String
  Properties : graph.Properties
  deriving DecidableEq, Repr

/-- The zero value of an entry, as `make` fills a slice with. -/
def zeroEntry : AssetGroupCollectionEntry := ⟨"", "", []⟩

/-- The graph transaction as `FetchAssetGroupNodes` uses it: the one query
`ops.FetchNodeSet(tx.Nodes().Filterf(...))`, whose criteria are fixed by the
tag property name and the tag; the store answers with a node set or an
error. -/
structure Transaction where
  FetchNodeSet : String → String → Except String graph.NodeSet

/-- The tag string of a node: `tags, _ := node.Properties.Get(prop).String()`. -/
def nodeTags (tagProperty : String) (node : graph.Node) : String :=
  graph.StringOrZero (node.Properties.Get tagProperty)

/-- The loop of `FetchAssetGroupNodes`: every node of the fetched set whose
space-separated tags do not hold the tag exactly is removed from the set. -/
def removeInexactMatches (tagProperty assetGroupTag : String)
    (assetGroupNodes : graph.NodeSet) : graph.NodeSet :=
  assetGroupNodes.foldl
    (fun remaining node =>
      if !(strings.Split (nodeTags tagProperty node) ' ').contains assetGroupTag then
        graph.NodeSet.Remove remaining node.ID
      else remaining)
    assetGroupNodes

/-- The tag property `FetchAssetGroupNodes` reads: the system tags, or the
user tags when the group is not a system group. -/
def tagPropertyStr (isSystemGroup : Bool) : String :=
  if !isSystemGroup then graphschema.common.UserTags else graphschema.common.SystemTags

/-- `FetchAssetGroupNodes(tx, assetGroupTag, isSystemGroup)` of `agi.go`. -/
def FetchAssetGroupNodes (tx : Transaction) (assetGroupTag : String) (isSystemGroup : Bool) :
    Except String graph.NodeSet :=
  match tx.FetchNodeSet (tagPropertyStr isSystemGroup) assetGroupTag with
  | Except.error err => Except.error err
  | Except.ok assetGroupNodes =>
    Except.ok (removeInexactMatches (tagPropertyStr isSystemGroup) assetGroupTag
      assetGroupNodes)

/-- The nodes `FetchAssetGroupNodes` yields for an asset group (none when it
fails). -/
def assetGroupNodesOf (tx : Transaction) (assetGroup : AssetGroup) : graph.NodeSet :=
  match FetchAssetGroupNodes tx assetGroup.Tag assetGroup.SystemGroup with
  | Except.ok assetGroupNodes => assetGroupNodes
  | Except.error _ => []

/-- The relational store as the run uses it (`AgiData`), over an abstract
store state, and the label function of `packages/go/analysis`, which is not
among the sources. -/
structure AgiData (σ : Type) where
  GetAllAssetGroups : σ → Except String (List AssetGroup)
  CreateAssetGroupCollection :
    AssetGroupCollection → List AssetGroupCollectionEntry → σ → σ × Option String
  GetNodeKindDisplayLabel : graph.Node → String

/-- One observable step of a collection run. -/
inductive Event where
  | getAllAssetGroups (failed : Bool)
  | writeTransaction
  | fetchAssetGroupNodes (assetGroup : AssetGroup) (failed : Bool)
  | createAssetGroupCollection (collection : AssetGroupCollection)
      (entries : List AssetGroupCollectionEntry) (failed : Bool)
  deriving DecidableEq, Repr

/-- Whether the step is a store call that returned an error. -/
def Event.failed : Event → Bool
  | Event.getAllAssetGroups f => f
  | Event.writeTransaction => false
  | Event.fetchAssetGroupNodes _ f => f
  | Event.createAssetGroupCollection _ _ f => f

/-- The collection and entries of a `CreateAssetGroupCollection` call. -/
def Event.created : Event → Option (AssetGroupCollection × List AssetGroupCollectionEntry)
  | Event.createAssetGroupCollection c es _ => some (c, es)
  | _ => none

/-- The entries built for the nodes of one asset group: the slice is made
with one zero entry per node, and the entry at a node's index is set when
the node has a string `objectid`. -/
def buildEntries (label : graph.Node → String) (assetGroupNodes : graph.NodeSet) :
    List AssetGroupCollectionEntry :=
  assetGroupNodes.map (fun node =>
    match graph.StringOf (node.Properties.Get graphschema.common.ObjectID) with
    | Except.error _ => zeroEntry
    | Except.ok objectID =>
      { ObjectID := objectID, NodeLabel := label node, Properties := node.Properties })

/-- The lines logged with `slog.ErrorContext` while the entries are built. -/
def entryErrors (assetGroupNodes : graph.NodeSet) : List String :=
  assetGroupNodes.filterMap (fun node =>
    match graph.StringOf (node.Properties.Get graphschema.common.ObjectID) with
    | Except.error _ =>
      some ("Node " ++ toString node.ID ++ " that does not have valid " ++
        graphschema.common.ObjectID ++ " property")
    | Except.ok _ => none)

/-- What a collection run leaves behind. -/
structure Run (σ : Type) where
  state : σ
  trace : List Event
  logged : List String
  result : Option String

/-- The body of the write transaction: the loop over the asset groups, which
returns at the first error. -/
def collectAssetGroups {σ : Type} (db : AgiData σ) (tx : Transaction) :
    List AssetGroup → σ → Run σ
  | [], s => { state := s, trace := [], logged := [], result := none }
  | assetGroup :: rest, s =>
    match FetchAssetGroupNodes tx assetGroup.Tag assetGroup.SystemGroup with
    | Except.error err =>
      { state := s, trace := [Event.fetchAssetGroupNodes assetGroup true], logged := [],
        result := some err }
    | Except.ok assetGroupNodes =>
      let entries := buildEntries db.GetNodeKindDisplayLabel assetGroupNodes
      let collection : AssetGroupCollection := { AssetGroupID := assetGroup.ID }
      match db.CreateAssetGroupCollection collection entries s with
      | (s', some err) =>
        { state := s'
          trace := [Event.fetchAssetGroupNodes assetGroup false,
            Event.createAssetGroupCollection collection entries true]
          logged := entryErrors assetGroupNodes
          result := some err }
      | (s', none) =>
        let r := collectAssetGroups db tx rest s'
        { state := r.state
          trace := Event.fetchAssetGroupNodes assetGroup false ::
            Event.createAssetGroupCollection collection entries false :: r.trace
          logged := entryErrors assetGroupNodes ++ r.logged
          result := r.result }

/-- `RunAssetGroupIsolationCollections(ctx, db, graphDB)` of `agi.go`.  The
write transaction hands the body a transaction on the graph and returns the
body's error. -/
def RunAssetGroupIsolationCollections {σ : Type} (db : AgiData σ) (graphDB : Transaction)
    (s : σ) : Run σ :=
  match db.GetAllAssetGroups s with
  | Except.error err =>
    { state := s, trace := [Event.getAllAssetGroups true], logged := [], result := some err }
  | Except.ok assetGroups =>
    let r := collectAssetGroups db graphDB assetGroups s
    { state := r.state
      trace := Event.getAllAssetGroups false :: Event.writeTransaction :: r.trace
      logged := r.logged
      result := r.result }

/-- The collections created by a run, in order, with their entries. -/
def createdCollections {σ : Type} (r : Run σ) :
    List (AssetGroupCollection × List AssetGroupCollectionEntry) :=
  r.trace.filterMap Event.created

/-- A scripted store over the trivial state: fixed asset groups, one fixed
node set for every query, and collections that are always accepted. -/
def scriptedStore (assetGroups : List AssetGroup) : AgiData Unit where
  GetAllAssetGroups := fun _ => Except.ok assetGroups
  CreateAssetGroupCollection := fun _ _ s => (s, none)
  GetNodeKindDisplayLabel := fun node => node.Kinds.headD "Unknown"

/-- A scripted transaction: the query answers with the nodes whose tag
property contains the tag as a substring, as `query.StringContains` does. -/
def scriptedTransaction (nodes : graph.NodeSet) : Transaction where
  FetchNodeSet := fun tagProperty assetGroupTag =>
    Except.ok (nodes.filter (fun node =>
      strings.Contains (nodeTags tagProperty node) assetGroupTag))

/-- Three tagged nodes: one tagged exactly `admin_tier_0`, one whose only
tag is the longer `admin_tier_0_extra`, and one tagged exactly but with a
numeric `objectid`. -/
def sampleNodes : graph.NodeSet :=
  [⟨1, ["Base", "User"],
      [("system_tags", graph.PropertyValue.string "admin_tier_0 owned"),
       ("objectid", graph.PropertyValue.string "S-1-5-21-1")]⟩,
   ⟨2, ["Base", "User"],
      [("system_tags", graph.PropertyValue.string "admin_tier_0_extra"),
       ("objectid", graph.PropertyValue.string "S-1-5-21-2")]⟩,
   ⟨3, ["Base", "Computer"],
      [("system_tags", graph.PropertyValue.string "owned admin_tier_0"),
       ("objectid", graph.PropertyValue.number 3)]⟩]

end agi

namespace agi

/-- The entries the run builds for an asset group: those of the nodes
`FetchAssetGroupNodes` yields for it. -/
def entriesOf {σ : Type} (db : AgiData σ) (tx : Transaction) (assetGroup : AssetGroup) :
    List AssetGroupCollectionEntry :=
  buildEntries db.GetNodeKindDisplayLabel (assetGroupNodesOf tx assetGroup)

/-- The store after `CreateAssetGroupCollection` has been applied for each of
the asset groups in turn, starting from `s`; read off the store alone. -/
def storeAfter {σ : Type} (db : AgiData σ) (tx : Transaction) : List AssetGroup → σ → σ
  | [], s => s
  | assetGroup :: rest, s =>
    storeAfter db tx rest
      (db.CreateAssetGroupCollection { AssetGroupID := assetGroup.ID }
        (entriesOf db tx assetGroup) s).1

/-- A scripted store over a counter of the collections it has accepted: the
creation of the collection of asset group `rejected` fails, every other one
is accepted and counted. -/
def rejectingStore (assetGroups : List AssetGroup) (rejected : Int) : AgiData Nat where
  GetAllAssetGroups := fun _ => Except.ok assetGroups
  CreateAssetGroupCollection := fun collection _ s =>
    if collection.AssetGroupID = rejected then (s, some "collection rejected") else (s + 1, none)
  GetNodeKindDisplayLabel := fun node => node.Kinds.headD "Unknown"

/-- A scripted transaction whose query fails for the tag `unreadable` and
otherwise answers as `scriptedTransaction` does. -/
def failingTransaction (nodes : graph.NodeSet) (unreadable : String) : Transaction where
  FetchNodeSet := fun tagProperty assetGroupTag =>
    if assetGroupTag = unreadable then Except.error "query failed"
    else (scriptedTransaction nodes).FetchNodeSet tagProperty assetGroupTag

end agi

namespace neo4j

/-- The driver name of the graph library's Neo4j driver (`neo4j.DriverName`);
the library is not part of the repository. -/
def DriverName : String := "neo4j"

end neo4j

namespace pg

/-- The driver name of the graph library's PostgreSQL driver
(`pg.DriverName`). -/
def DriverName : String := "pg"

end pg

namespace config

/-- The TLS section; `NewDefaultConfiguration` leaves it at its zero value. -/
structure TLSConfiguration where
  deriving DecidableEq, Repr

/-- The SAML section; left at its zero value. -/
structure SAMLConfiguration where
  deriving DecidableEq, Repr

/-- A database section. -/
structure DatabaseConfiguration where
  MaxConcurrentSessions : Nat
  deriving DecidableEq, Repr

/-- The JWT section. -/
structure JWTConfiguration where
  SigningKey : String
  deriving DecidableEq, Repr

/-- The Argon2 section. -/
structure Argon2Configuration where
  MemoryKibibytes : Nat
  NumIterations : Nat
  NumThreads : Nat
  deriving DecidableEq, Repr

/-- The crypto section. -/
structure CryptoConfiguration where
  JWT : JWTConfiguration
  Argon2 : Argon2Configuration
  deriving DecidableEq, Repr

/-- The default-admin section. -/
structure DefaultAdminConfiguration where
  PrincipalName : String
  Password : String
  EmailAddress : String
  FirstName : String
  LastName : String
  ExpireNow : Bool
  deriving DecidableEq, Repr

/-- The fields of `Configuration` that `NewDefaultConfiguration` sets; URLs
are kept as the strings they are parsed from. -/
structure Configuration where
  Version : Nat
  BindAddress : String
  SlowQueryThreshold : Nat
  MaxGraphQueryCacheSize : Nat
  MaxAPICacheSize : Nat
  MetricsPort : String
  RootURL : String
  WorkDir : String
  LogLevel : String
  CollectorsBasePath : String
  CollectorsBucketURL : String
  DatapipeInterval : Nat
  EnableStartupWaitPeriod : Bool
  EnableAPILogging : Bool
  DisableAnalysis : Bool
  DisableCypherComplexityLimit : Bool
  DisableIngest : Bool
  DisableMigrations : Bool
  EnableCypherMutations : Bool
  RecreateDefaultAdmin : Bool
  GraphQueryMemoryLimit : Nat
  EnableTextLogger : Bool
  TLS : TLSConfiguration
  SAML : SAMLConfiguration
  GraphDriver : String
  Database : DatabaseConfiguration
  Neo4J : DatabaseConfiguration
  Crypto : CryptoConfiguration
  DefaultAdmin : DefaultAdminConfiguration
  deriving DecidableEq, Repr

/-- `NewDefaultConfiguration()` of `default.go`.  The outcomes of
`GenerateRandomBase64String(32)` and `GenerateSecureRandomString(32)` are
its inputs; the second is only called when the first succeeded. -/
def NewDefaultConfiguration (jwtSigningKey generatedPassword : Except String String) :
    Except String Configuration :=
  match jwtSigningKey with
  | Except.error err => Except.error ("failed to generate JWT signing key: " ++ err)
  | Except.ok jwtSigningKey =>
    match generatedPassword with
    | Except.error err => Except.error ("failed to generate default password: " ++ err)
    | Except.ok generatedPassword =>
      Except.ok
        { Version := 0
          BindAddress := "127.0.0.1"
          SlowQueryThreshold := 100
          MaxGraphQueryCacheSize := 100
          MaxAPICacheSize := 200
          MetricsPort := ":2112"
          RootURL := "http://localhost"
          WorkDir := "/opt/bhe/work"
          LogLevel := "INFO"
          CollectorsBasePath := "/etc/bloodhound/collectors"
          CollectorsBucketURL := "https://bhe-hound-artifacts.s3.amazonaws.com/"
          DatapipeInterval := 60
          EnableStartupWaitPeriod := true
          EnableAPILogging := true
          DisableAnalysis := false
          DisableCypherComplexityLimit := false
          DisableIngest := false
          DisableMigrations := false
          EnableCypherMutations := false
          RecreateDefaultAdmin := false
          GraphQueryMemoryLimit := 2
          EnableTextLogger := false
          TLS := {}
          SAML := {}
          GraphDriver := neo4j.DriverName
          Database := { MaxConcurrentSessions := 10 }
          Neo4J := { MaxConcurrentSessions := 10 }
          Crypto :=
            { JWT := { SigningKey := jwtSigningKey }
              Argon2 :=
                { MemoryKibibytes := 1024 * 1024 * 1
                  NumIterations := 1
                  NumThreads := 8 } }
          DefaultAdmin :=
            { PrincipalName := "admin"
              Password := generatedPassword
              EmailAddress := "spam@example.com"
              FirstName := "Admin"
              LastName := "User"
              ExpireNow := true } }

/-- The graph driver of a returned configuration, if one was returned. -/
def graphDriverOf (r : Except String Configuration) : Option String :=
  match r with
  | Except.ok cfg => some cfg.GraphDriver
  | Except.error _ => none

end config

namespace golang

/-- The fields of `GoPackage` that the build reads. -/
structure GoPackage where
  (Name Dir Import : String)
  deriving DecidableEq, Repr

/-- What the build reads of a `semver.Version`. -/
structure Version where
  Major : Nat
  Minor : Nat
  Patch : Nat
  Prerelease : String
  Original : String
  deriving DecidableEq, Repr

/-- The collaborators of the build: the version lookup in the git tags, the
semver parser, the environment map and the name of its version variable,
the package listing, the command runner, and `filepath.Join` with the path
separator.  The command runner gives the error of `go build`, if any. -/
structure Toolchain where
  ParseLatestVersionFromTags : String → Except String Version
  NewVersion : String → Except String Version
  env : String → String
  VersionVarName : String
  moduleListPackages : String → Except String (List GoPackage)
  Run : String → List String → String → Option String
  Join : String → String → String
  Separator : String

/-- One call of the command runner: command, arguments and working
directory. -/
structure Command where
  command : String
  args : List String
  dir : String
  deriving DecidableEq, Repr

/-- What a build leaves behind: the returned error, the commands run and
the lines logged. -/
structure BuildRun where
  result : Option String
  commands : List Command
  logged : List String

/-- Go's `errors.Join`: nil when there is no error, else the messages
joined by newlines. -/
def errorsJoin (errs : List String) : Option String :=
  if errs.isEmpty then none else some ("\n".intercalate errs)

/-- The arguments of `go build`: the version is handed to the linker. -/
def buildArgs (buildDir : String) (version : Version) : List String :=
  let majorString :=
    "-X 'github.com/specterops/bloodhound/cmd/api/src/version.majorVersion=" ++
      toString version.Major ++ "'"
  let minorString :=
    "-X 'github.com/specterops/bloodhound/cmd/api/src/version.minorVersion=" ++
      toString version.Minor ++ "'"
  let patchString :=
    "-X 'github.com/specterops/bloodhound/cmd/api/src/version.patchVersion=" ++
      toString version.Patch ++ "'"
  let prereleaseString :=
    "-X 'github.com/specterops/bloodhound/cmd/api/src/version.prereleaseVersion=" ++
      version.Prerelease ++ "'"
  let ldflagArgComponents :=
    if version.Prerelease != "" then [majorString, minorString, patchString, prereleaseString]
    else [majorString, minorString, patchString]
  ["build", "-ldflags", " ".intercalate ldflagArgComponents, "-o", buildDir]

/-- The packages `buildModuleMainPackages` builds: those named `main` whose
directory does not contain `plugin`. -/
def isBuildTarget (pkg : GoPackage) : Bool :=
  pkg.Name == "main" && !strings.Contains pkg.Dir "plugin"

/-- `buildModuleMainPackages(buildDir, modPath, version, env)` of `build.go`.
The builds run in goroutines that share only the error list; they are
listed here in package order, and the returned error is nil exactly when the
error list is empty, in whatever order the errors arrive. -/
def buildModuleMainPackages (w : Toolchain) (buildDir modPath : String) (version : Version) :
    BuildRun :=
  let args := buildArgs buildDir version
  match w.moduleListPackages modPath with
  | Except.error err =>
    { result := some ("list module packages: " ++ err), commands := [], logged := [] }
  | Except.ok packages =>
    let targets := packages.filter isBuildTarget
    let errs := targets.filterMap (fun p =>
      (w.Run "go" args p.Dir).map (fun err =>
        "go build for package " ++ p.Import ++ ": " ++ err))
    { result := errorsJoin errs
      commands := targets.map (fun p => { command := "go", args := args, dir := p.Dir })
      logged := targets.map (fun p => "Built package " ++ p.Import) }

/-- The version `BuildMainPackages` builds for: the latest git tag, or, when
that fails, the version variable of the environment. -/
def resolveVersion (w : Toolchain) (workRoot : String) : Except String Version :=
  match w.ParseLatestVersionFromTags workRoot with
  | Except.ok version => Except.ok version
  | Except.error _ =>
    match w.NewVersion (w.env w.VersionVarName) with
    | Except.error err =>
      Except.error ("error parsing version from environment variable: " ++ err)
    | Except.ok parsedVersion => Except.ok parsedVersion

/-- The warning logged when the git tags give no version. -/
def versionWarning (w : Toolchain) (workRoot : String) : List String :=
  match w.ParseLatestVersionFromTags workRoot with
  | Except.ok _ => []
  | Except.error err =>
    ["Failed to parse version from git tags, falling back to environment variable: " ++ err]

/-- `BuildMainPackages(workRoot, modPath, env)` of `build.go`. -/
def BuildMainPackages (w : Toolchain) (workRoot modPath : String) : BuildRun :=
  let buildDir := w.Join workRoot "dist" ++ w.Separator
  match resolveVersion w workRoot with
  | Except.error err =>
    { result := some err, commands := [], logged := versionWarning w workRoot }
  | Except.ok version =>
    let r := buildModuleMainPackages w buildDir modPath version
    { result := r.result.map (fun err => "build main packages: " ++ err)
      commands := r.commands
      logged := versionWarning w workRoot ++
        ("Building for version " ++ version.Original) :: r.logged }

/-- A scripted toolchain: the git tags give version 1.2.3, the listing is
fixed, and `go build` fails exactly in the directories listed as broken. -/
def scriptedToolchain (packages : List GoPackage) (broken : List String) : Toolchain where
  ParseLatestVersionFromTags := fun _ => Except.ok ⟨1, 2, 3, "", "v1.2.3"⟩
  NewVersion := fun _ => Except.error "no version"
  env := fun _ => ""
  VersionVarName := "SB_VERSION"
  moduleListPackages := fun _ => Except.ok packages
  Run := fun _ _ dir => if broken.contains dir then some "exit status 1" else none
  Join := fun a b => a ++ "/" ++ b
  Separator := "/"

/-- A module with an API command, a plugin command and a library. -/
def samplePackages : List GoPackage :=
  [⟨"main", "/work/cmd/api", "example.com/cmd/api"⟩,
   ⟨"main", "/work/cmd/plugin/hello", "example.com/cmd/plugin/hello"⟩,
   ⟨"graph", "/work/packages/graph", "example.com/packages/graph"⟩]

end golang

namespace datapipe

/-- What `ad.Post` answers in the AD block entered at store state `s`, read
off the collaborators alone: `ad.Post` is called, with the two flags, when
both flag lookups succeed; when a lookup fails it is not called, so the
store stays as it is and there is no error of `ad.Post`. -/
def adPostAnswer {σ : Type} (env : Env σ) (s : σ) : σ × Option String :=
  match env.GetFlagByKey FlagKey.FeatureAdcs s,
      env.GetFlagByKey FlagKey.FeatureNTLMPostProcessing s with
  | Except.ok adcsFlag, Except.ok ntlmFlag =>
      env.ADPost adcsFlag.Enabled (env.GetCitrixRDPSupport s) ntlmFlag.Enabled s
  | _, _ => (s, none)

/-- What `agi.RunAssetGroupIsolationCollections` answers at store state `s`
in the run started at `s0`, read off the collaborators alone: it is called
when tiering is disabled; when tiering is enabled it is not called, so the
store stays as it is and there is no error of it. -/
def agiAnswer {σ : Type} (env : Env σ) (s0 s : σ) : σ × Option String :=
  if env.GetTieringEnabled s0 then (s, none) else env.RunAssetGroupIsolationCollections s

/-- A scripted environment whose store is the log of the passes applied to
it: every pass appends its own name to the store and returns the outcome
fixed in advance. -/
def recordingEnv (tiering : Bool) (fix dom link : Option String) (tag : List String)
    (adcs ntlm : Except String FeatureFlag) (ad azure agi dq : Option String) :
    Env (List Pass) where
  GetTieringEnabled := fun _ => tiering
  FixWellKnownNodeTypes := fun s => (s ++ [Pass.FixWellKnownNodeTypes], fix)
  RunDomainAssociations := fun s => (s ++ [Pass.RunDomainAssociations], dom)
  LinkWellKnownNodes := fun s => (s ++ [Pass.LinkWellKnownNodes], link)
  TagAssetGroupsAndTierZero := fun s => (s ++ [Pass.TagAssetGroupsAndTierZero], tag)
  GetFlagByKey := fun k _ => match k with
    | FlagKey.FeatureAdcs => adcs
    | FlagKey.FeatureNTLMPostProcessing => ntlm
  GetCitrixRDPSupport := fun _ => false
  ADPost := fun _ _ _ s => (s ++ [Pass.ADPost], ad)
  AzurePost := fun s => (s ++ [Pass.AzurePost], azure)
  RunAssetGroupIsolationCollections :=
    fun s => (s ++ [Pass.RunAssetGroupIsolationCollections], agi)
  SaveDataQuality := fun s => (s ++ [Pass.SaveDataQuality], dq)

end datapipe

namespace lab

/-- The Go heap as far as sets are concerned.  A `Set[T]` value is a
reference to a map, so two set values may share one table; `table` gives
the keys of the map behind a reference and `next` is the first reference
not yet handed out by `make`. -/
structure Heap (α : Type) where
  next : Nat
  table : Nat → List α

/-- A set value: a reference into the heap. -/
abbrev Set := Nat

/-- The heap before any set is made. -/
def Heap.empty {α : Type} : Heap α := { next := 0, table := fun _ => [] }

/-- The built-in `make(internal.Set[T])`: a fresh, empty map. -/
def make {α : Type} (h : Heap α) : Set × Heap α :=
  (h.next,
    { next := h.next + 1
      table := fun r => if r = h.next then [] else h.table r })

/-- Modelled from the spec: `Set` of `packages/go/lab/internal` is not among
the sources (only `set_test.go` is) and the specification does not describe
it.  The test makes it with `make` and indexes it to `struct{}{}`, so it is
a Go map from elements to `struct{}`; `Add(v)` stores the key `v` in the
map behind the receiver. -/
def Set.Add {α : Type} [DecidableEq α] (s : Set) (v : α) (h : Heap α) : Heap α :=
  { next := h.next
    table := fun r =>
      if r = s then (if v ∈ h.table s then h.table s else v :: h.table s) else h.table r }

/-- Modelled from the spec: `Has(v)` of the absent `Set`: whether `v` is a
key of the map behind the receiver. -/
def Set.Has {α : Type} [DecidableEq α] (s : Set) (v : α) (h : Heap α) : Bool :=
  decide (v ∈ h.table s)

/-- Modelled from the spec: `Delete(v)` of the absent `Set`: the key `v` is
deleted from the map behind the receiver. -/
def Set.Delete {α : Type} [DecidableEq α] (s : Set) (v : α) (h : Heap α) : Heap α :=
  { next := h.next
    table := fun r => if r = s then (h.table s).filter (fun w => decide (w ≠ v)) else h.table r }

/-- Modelled from the spec: `Clone()` of the absent `Set`: a fresh map with
the keys of the receiver (the test requires the clone not to be the same
value and a deletion on it not to reach the original). -/
def Set.Clone {α : Type} (s : Set) (h : Heap α) : Set × Heap α :=
  (h.next,
    { next := h.next + 1
      table := fun r => if r = h.next then h.table s else h.table r })

end lab

namespace model

/-- The timestamps and identifier embedded in a stored record (`Serial`);
the type is declared outside the sources at hand. -/
structure Serial where
  ID : Int
  CreatedAt : Nat
  UpdatedAt : Nat
  DeletedAt : Option Nat
  deriving DecidableEq, Repr

/-- The type `Permission` of `auth.go`. -/
structure Permission where
  Authority : String
  Name : String
  Serial : Serial
  deriving DecidableEq, Repr

/-- `NewPermission(authority, name)`: the serial fields are left at their
zero values. -/
def NewPermission (authority name : String) : Permission :=
  { Authority := authority, Name := name, Serial := ⟨0, 0, 0, none⟩ }

/-- `Permission.Equals`. -/
def Permission.Equals (s other : Permission) : Bool :=
  s.Authority == other.Authority && s.Name == other.Name

/-- The type `Permissions` of `auth.go`. -/
abbrev Permissions := List Permission

/-- The inner loop of `Permissions.Equals`: `found` after ranging over
`others`. -/
def foundIn (permission : Permission) (others : Permissions) : Bool :=
  others.foldl (fun found otherPermission =>
    if permission.Equals otherPermission then true else found) false

/-- The outer loop of `Permissions.Equals`: it returns false at the first
permission of `s` that is not found, and true after the last. -/
def allFound : Permissions → Permissions → Bool
  | [], _ => true
  | permission :: rest, others =>
    if !foundIn permission others then false else allFound rest others

/-- `Permissions.Equals`. -/
def Permissions.Equals (s others : Permissions) : Bool :=
  if s.length != others.length then false else allFound s others

/-- The (Authority, Name) pair of a permission. -/
def Permission.key (p : Permission) : String × String := (p.Authority, p.Name)

/-- A role, as far as `FindByPermissions` reads it. -/
structure Role where
  Name : String
  Permissions : Permissions
  deriving DecidableEq, Repr

/-- `Roles.FindByPermissions`: the first role whose permissions equal the
given ones. -/
def FindByPermissions (s : List Role) (permissions : Permissions) : Option Role :=
  s.find? (fun role => role.Permissions.Equals permissions)

end model

/-! Theorems. -/

namespace datapipe

/-- The four ways through the AD block. -/
theorem adBlock_cases {σ : Type} (env : Env σ) (s : σ) :
    (∃ e, adBlock env s = (s, [Event.flagLookup FlagKey.FeatureAdcs true], [e], false)) ∨
    (∃ e, adBlock env s = (s, [Event.flagLookup FlagKey.FeatureAdcs false,
        Event.flagLookup FlagKey.FeatureNTLMPostProcessing true], [e], false)) ∨
    (∃ s' e, adBlock env s = (s', [Event.flagLookup FlagKey.FeatureAdcs false,
        Event.flagLookup FlagKey.FeatureNTLMPostProcessing false,
        Event.pass Pass.ADPost true], [e], true)) ∨
    (∃ s', adBlock env s = (s', [Event.flagLookup FlagKey.FeatureAdcs false,
        Event.flagLookup FlagKey.FeatureNTLMPostProcessing false,
        Event.pass Pass.ADPost false], [], false)) := by
  unfold adBlock
  split
  · exact Or.inl ⟨_, rfl⟩
  · split
    · exact Or.inr (Or.inl ⟨_, rfl⟩)
    · split
      · exact Or.inr (Or.inr (Or.inl ⟨_, _, rfl⟩))
      · exact Or.inr (Or.inr (Or.inr ⟨_, rfl⟩))

/-- The three ways through the asset-group-isolation block. -/
theorem agiBlock_cases {σ : Type} (env : Env σ) (t : Bool) (s : σ) :
    (t = true ∧ agiBlock env t s = (s, [], [], false)) ∨
    (t = false ∧ ∃ s' e, agiBlock env t s =
      (s', [Event.pass Pass.RunAssetGroupIsolationCollections true], [e], true)) ∨
    (t = false ∧ ∃ s', agiBlock env t s =
      (s', [Event.pass Pass.RunAssetGroupIsolationCollections false], [], false)) := by
  unfold agiBlock
  cases t
  · simp only [Bool.not_false, if_true]
    split
    · exact Or.inr (Or.inl ⟨trivial, _, _, rfl⟩)
    · exact Or.inr (Or.inr ⟨trivial, _, rfl⟩)
  · exact Or.inl ⟨rfl, rfl⟩

theorem adBlock_pass_true {σ : Type} (env : Env σ) (s : σ) (p : Pass) :
    Event.pass p true ∈ (adBlock env s).2.1 ↔
      (p = Pass.ADPost ∧ (adBlock env s).2.2.2 = true) := by
  rcases adBlock_cases env s with ⟨e, h⟩ | ⟨e, h⟩ | ⟨s', e, h⟩ | ⟨s', h⟩ <;> simp [h]

theorem agiBlock_pass_true {σ : Type} (env : Env σ) (t : Bool) (s : σ) (p : Pass) :
    Event.pass p true ∈ (agiBlock env t s).2.1 ↔
      (p = Pass.RunAssetGroupIsolationCollections ∧ (agiBlock env t s).2.2.2 = true) := by
  rcases agiBlock_cases env t s with ⟨_, h⟩ | ⟨_, s', e, h⟩ | ⟨_, s', h⟩ <;> simp [h]

/-- The returned status is `analysisStatus` of four flags, and each flag is
set exactly when the corresponding pass was invoked and returned an error. -/
theorem result_flags {σ : Type} (env : Env σ) (s0 : σ) :
    ∃ ad az agi dq : Bool,
      (RunAnalysisOperations env s0).result = analysisStatus ad az agi dq ∧
      (returnedError (RunAnalysisOperations env s0) Pass.ADPost ↔ ad = true) ∧
      (returnedError (RunAnalysisOperations env s0) Pass.AzurePost ↔ az = true) ∧
      (returnedError (RunAnalysisOperations env s0)
        Pass.RunAssetGroupIsolationCollections ↔ agi = true) ∧
      (returnedError (RunAnalysisOperations env s0) Pass.SaveDataQuality ↔ dq = true) := by
  refine ⟨_, _, _, _, rfl, ?_, ?_, ?_, ?_⟩ <;>
    simp [returnedError, RunAnalysisOperations, adBlock_pass_true, agiBlock_pass_true]

theorem adBlock_passes {σ : Type} (env : Env σ) (s : σ) :
    (adBlock env s).2.1.filterMap Event.calledPass =
      if Event.flagLookup FlagKey.FeatureAdcs false ∈ (adBlock env s).2.1 ∧
          Event.flagLookup FlagKey.FeatureNTLMPostProcessing false ∈ (adBlock env s).2.1
      then [Pass.ADPost] else [] := by
  rcases adBlock_cases env s with ⟨e, h⟩ | ⟨e, h⟩ | ⟨s', e, h⟩ | ⟨s', h⟩ <;>
    simp [h, Event.calledPass]

theorem agiBlock_passes {σ : Type} (env : Env σ) (t : Bool) (s : σ) :
    (agiBlock env t s).2.1.filterMap Event.calledPass =
      if t then [] else [Pass.RunAssetGroupIsolationCollections] := by
  rcases agiBlock_cases env t s with ⟨ht, h⟩ | ⟨ht, s', e, h⟩ | ⟨ht, s', h⟩ <;>
    subst ht <;> simp [h, Event.calledPass]

theorem agiBlock_no_flag {σ : Type} (env : Env σ) (t : Bool) (s : σ) (k : FlagKey) (b : Bool) :
    Event.flagLookup k b ∉ (agiBlock env t s).2.1 := by
  rcases agiBlock_cases env t s with ⟨ht, h⟩ | ⟨ht, s', e, h⟩ | ⟨ht, s', h⟩ <;> simp [h]

/-- The passes a run invokes, as a list in invocation order. -/
theorem passesInvoked_eq {σ : Type} (env : Env σ) (s0 : σ) :
    passesInvoked (RunAnalysisOperations env s0) =
      [Pass.FixWellKnownNodeTypes, Pass.RunDomainAssociations, Pass.LinkWellKnownNodes,
        Pass.TagAssetGroupsAndTierZero] ++
      (if flagLookupSucceeded (RunAnalysisOperations env s0) FlagKey.FeatureAdcs ∧
          flagLookupSucceeded (RunAnalysisOperations env s0) FlagKey.FeatureNTLMPostProcessing
        then [Pass.ADPost] else []) ++
      [Pass.AzurePost] ++
      (if env.GetTieringEnabled s0 then [] else [Pass.RunAssetGroupIsolationCollections]) ++
      [Pass.SaveDataQuality] := by
  simp [passesInvoked, flagLookupSucceeded, RunAnalysisOperations, List.filterMap_append,
    adBlock_passes, agiBlock_passes, agiBlock_no_flag, Event.calledPass]

end datapipe

namespace datapipe

/-- The AD block leaves the store and sets `adFailed` as `ad.Post` answers,
when it is called at all. -/
theorem adBlock_answer {σ : Type} (env : Env σ) (s : σ) :
    (adBlock env s).1 = (adPostAnswer env s).1 ∧
    (adBlock env s).2.2.2 = (adPostAnswer env s).2.isSome := by
  unfold adBlock adPostAnswer
  cases h1 : env.GetFlagByKey FlagKey.FeatureAdcs s with
  | error e => exact ⟨rfl, rfl⟩
  | ok adcsFlag =>
    cases h2 : env.GetFlagByKey FlagKey.FeatureNTLMPostProcessing s with
    | error e => exact ⟨rfl, rfl⟩
    | ok ntlmFlag =>
      dsimp only
      split <;> rename_i h <;> simp [h]

/-- The asset-group-isolation block leaves the store and sets `agiFailed` as
the pass answers, when it is called at all. -/
theorem agiBlock_answer {σ : Type} (env : Env σ) (s0 s : σ) :
    (agiBlock env (env.GetTieringEnabled s0) s).1 = (agiAnswer env s0 s).1 ∧
    (agiBlock env (env.GetTieringEnabled s0) s).2.2.2 = (agiAnswer env s0 s).2.isSome := by
  unfold agiBlock agiAnswer
  cases env.GetTieringEnabled s0
  · simp only [Bool.not_false, if_true, Bool.false_eq_true, if_false]
    split <;> rename_i h <;> simp [h]
  · exact ⟨rfl, rfl⟩

/-- The AD block when both flag lookups succeed: `ad.Post` is called once,
after the two lookups, and its answer decides `adFailed`. -/
theorem adBlock_of_flags {σ : Type} (env : Env σ) (s s' : σ) (adcsFlag ntlmFlag : FeatureFlag)
    (e : Option String)
    (hadcs : env.GetFlagByKey FlagKey.FeatureAdcs s = Except.ok adcsFlag)
    (hntlm : env.GetFlagByKey FlagKey.FeatureNTLMPostProcessing s = Except.ok ntlmFlag)
    (hpost : env.ADPost adcsFlag.Enabled (env.GetCitrixRDPSupport s) ntlmFlag.Enabled s =
      (s', e)) :
    adBlock env s =
      (s', [Event.flagLookup FlagKey.FeatureAdcs false,
            Event.flagLookup FlagKey.FeatureNTLMPostProcessing false,
            Event.pass Pass.ADPost e.isSome],
        wrapErr "error during ad post: " e, e.isSome) := by
  unfold adBlock
  simp only [hadcs, hntlm, hpost]
  cases e <;> rfl

/-- The AD block when a flag lookup fails: the store is untouched, no pass is
called and `adFailed` stays false. -/
theorem adBlock_of_failed_lookup {σ : Type} (env : Env σ) (s : σ)
    (hlookup : (∃ err, env.GetFlagByKey FlagKey.FeatureAdcs s = Except.error err) ∨
      (∃ err, env.GetFlagByKey FlagKey.FeatureNTLMPostProcessing s = Except.error err)) :
    (adBlock env s).1 = s ∧ (adBlock env s).2.2.2 = false ∧
    (adBlock env s).2.1.filterMap Event.calledPass = [] ∧
    adPostAnswer env s = (s, none) := by
  unfold adBlock adPostAnswer
  cases h1 : env.GetFlagByKey FlagKey.FeatureAdcs s with
  | error e => exact ⟨rfl, rfl, rfl, rfl⟩
  | ok adcsFlag =>
    cases h2 : env.GetFlagByKey FlagKey.FeatureNTLMPostProcessing s with
    | error e => exact ⟨rfl, rfl, rfl, rfl⟩
    | ok ntlmFlag =>
      rcases hlookup with ⟨err, h⟩ | ⟨err, h⟩
      · rw [h1] at h; cases h
      · rw [h2] at h; cases h

/-- The events of the asset-group-isolation block. -/
theorem agiBlock_trace {σ : Type} (env : Env σ) (s0 s : σ) :
    (agiBlock env (env.GetTieringEnabled s0) s).2.1 =
      if env.GetTieringEnabled s0 then []
      else [Event.pass Pass.RunAssetGroupIsolationCollections (agiAnswer env s0 s).2.isSome] := by
  unfold agiBlock agiAnswer
  cases env.GetTieringEnabled s0
  · simp only [Bool.not_false, if_true, Bool.false_eq_true, if_false]
    split <;> rename_i h <;> simp [h]
  · rfl

/-- C1, as stated, fails: with tiering disabled and the feature flags found,
`ad.Post` and `azure.Post` both return an error while asset-group isolation
and the data-quality snapshot return none; the run returns
`ErrAnalysisPartiallyCompleted`, not `ErrAnalysisFailed`. -/
theorem C1_platform_failure_not_total :
    ((scriptedEnv false none none none [] (Except.ok ⟨true⟩) (Except.ok ⟨true⟩)
        (some "ad") (some "azure") none none).ADPost true false true ()).2 = some "ad" ∧
    ((scriptedEnv false none none none [] (Except.ok ⟨true⟩) (Except.ok ⟨true⟩)
        (some "ad") (some "azure") none none).AzurePost ()).2 = some "azure" ∧
    (RunAnalysisOperations (scriptedEnv false none none none []
        (Except.ok ⟨true⟩) (Except.ok ⟨true⟩) (some "ad") (some "azure") none none) ()).result
      = some AnalysisError.ErrAnalysisPartiallyCompleted ∧
    (RunAnalysisOperations (scriptedEnv false none none none []
        (Except.ok ⟨true⟩) (Except.ok ⟨true⟩) (some "ad") (some "azure") none none) ()).result
      ≠ some AnalysisError.ErrAnalysisFailed := by
  decide

/-- C1, amended.  Take any run in which both flag lookups succeed and
`ad.Post` and `azure.Post`, each applied to the store the step before it
left, both return an error.  If the asset-group-isolation pass and the
data-quality pass return an error as well, `RunAnalysisOperations` returns
`ErrAnalysisFailed`; if one of those two returns none (asset-group isolation
also when it is not called because tiering is enabled), it returns
`ErrAnalysisPartiallyCompleted`. -/
theorem C1_all_tracked_fail_total {σ : Type} (env : Env σ)
    (s0 s1 s2 s3 s4 s5 s6 s7 s8 : σ) (e1 e2 e3 : Option String) (errs : List String)
    (adcsFlag ntlmFlag : FeatureFlag) (adErr azureErr : String) (e7 e8 : Option String)
    (h1 : env.FixWellKnownNodeTypes s0 = (s1, e1))
    (h2 : env.RunDomainAssociations s1 = (s2, e2))
    (h3 : env.LinkWellKnownNodes s2 = (s3, e3))
    (h4 : env.TagAssetGroupsAndTierZero s3 = (s4, errs))
    (hadcs : env.GetFlagByKey FlagKey.FeatureAdcs s4 = Except.ok adcsFlag)
    (hntlm : env.GetFlagByKey FlagKey.FeatureNTLMPostProcessing s4 = Except.ok ntlmFlag)
    (h5 : env.ADPost adcsFlag.Enabled (env.GetCitrixRDPSupport s4) ntlmFlag.Enabled s4 =
      (s5, some adErr))
    (h6 : env.AzurePost s5 = (s6, some azureErr))
    (h7 : agiAnswer env s0 s6 = (s7, e7))
    (h8 : env.SaveDataQuality s7 = (s8, e8)) :
    ((∃ agiErr dqErr, e7 = some agiErr ∧ e8 = some dqErr) →
      (RunAnalysisOperations env s0).result = some AnalysisError.ErrAnalysisFailed) ∧
    (e7 = none ∨ e8 = none →
      (RunAnalysisOperations env s0).result =
        some AnalysisError.ErrAnalysisPartiallyCompleted) := by
  have hpost : adPostAnswer env s4 = (s5, some adErr) := by
    simp only [adPostAnswer, hadcs, hntlm, h5]
  have had := adBlock_answer env s4
  rw [hpost] at had
  have hagi := agiBlock_answer env s0 s6
  rw [h7] at hagi
  simp only [RunAnalysisOperations, h1, h2, h3, h4, had.2, had.1, h6, hagi.2, hagi.1, h8]
  constructor
  · rintro ⟨agiErr, dqErr, rfl, rfl⟩
    rfl
  · rintro (rfl | rfl)
    · cases e8 <;> rfl
    · cases e7 <;> rfl

/-- The amended C1 at a run with tiering disabled in which `ad.Post`,
`azure.Post`, asset-group isolation and the data-quality snapshot all return
an error. -/
theorem C1_all_tracked_fail_total_witness :
    (RunAnalysisOperations (scriptedEnv false none none none []
        (Except.ok ⟨true⟩) (Except.ok ⟨false⟩) (some "ad") (some "azure") (some "agi")
        (some "dq")) ()).result = some AnalysisError.ErrAnalysisFailed :=
  (C1_all_tracked_fail_total (scriptedEnv false none none none []
      (Except.ok ⟨true⟩) (Except.ok ⟨false⟩) (some "ad") (some "azure") (some "agi")
      (some "dq")) () () () () () () () () () none none none [] ⟨true⟩ ⟨false⟩ "ad" "azure"
    (some "agi") (some "dq") rfl rfl rfl rfl rfl rfl rfl rfl rfl rfl).1
    ⟨"agi", "dq", rfl, rfl⟩

/-- C2: in every run in which exactly one of `ad.Post`, `azure.Post`, the
asset-group-isolation pass and the data-quality pass, each applied to the
store the step before it left, returns an error and the others return none
(a pass that is not called returns no error), `RunAnalysisOperations`
returns `ErrAnalysisPartiallyCompleted`. -/
theorem C2_exactly_one_failure {σ : Type} (env : Env σ)
    (s0 s1 s2 s3 s4 s5 s6 s7 s8 : σ) (e1 e2 e3 : Option String) (errs : List String)
    (e5 e6 e7 e8 : Option String)
    (h1 : env.FixWellKnownNodeTypes s0 = (s1, e1))
    (h2 : env.RunDomainAssociations s1 = (s2, e2))
    (h3 : env.LinkWellKnownNodes s2 = (s3, e3))
    (h4 : env.TagAssetGroupsAndTierZero s3 = (s4, errs))
    (h5 : adPostAnswer env s4 = (s5, e5))
    (h6 : env.AzurePost s5 = (s6, e6))
    (h7 : agiAnswer env s0 s6 = (s7, e7))
    (h8 : env.SaveDataQuality s7 = (s8, e8))
    (hone : ([e5, e6, e7, e8].filter Option.isSome).length = 1) :
    (RunAnalysisOperations env s0).result =
      some AnalysisError.ErrAnalysisPartiallyCompleted := by
  have had := adBlock_answer env s4
  rw [h5] at had
  have hagi := agiBlock_answer env s0 s6
  rw [h7] at hagi
  simp only [RunAnalysisOperations, h1, h2, h3, h4, had.2, had.1, h6, hagi.2, hagi.1, h8]
  cases e5 <;> cases e6 <;> cases e7 <;> cases e8 <;>
    first | rfl | (simp at hone)

/-- C2 at a run in which only `azure.Post` returns an error. -/
theorem C2_exactly_one_failure_witness :
    (RunAnalysisOperations (scriptedEnv false none none none []
        (Except.ok ⟨true⟩) (Except.ok ⟨true⟩) none (some "azure") none none) ()).result
      = some AnalysisError.ErrAnalysisPartiallyCompleted :=
  C2_exactly_one_failure (scriptedEnv false none none none []
      (Except.ok ⟨true⟩) (Except.ok ⟨true⟩) none (some "azure") none none)
    () () () () () () () () () none none none [] none (some "azure") none none
    rfl rfl rfl rfl rfl rfl rfl rfl (by decide)

/-- C3: `RunAnalysisOperations` returns nil exactly when none of `ad.Post`,
`azure.Post`, the asset-group-isolation pass and the data-quality pass, each
applied to the store the step before it left, returns an error. -/
theorem C3_success_iff_no_tracked_failure {σ : Type} (env : Env σ)
    (s0 s1 s2 s3 s4 s5 s6 s7 s8 : σ) (e1 e2 e3 : Option String) (errs : List String)
    (e5 e6 e7 e8 : Option String)
    (h1 : env.FixWellKnownNodeTypes s0 = (s1, e1))
    (h2 : env.RunDomainAssociations s1 = (s2, e2))
    (h3 : env.LinkWellKnownNodes s2 = (s3, e3))
    (h4 : env.TagAssetGroupsAndTierZero s3 = (s4, errs))
    (h5 : adPostAnswer env s4 = (s5, e5))
    (h6 : env.AzurePost s5 = (s6, e6))
    (h7 : agiAnswer env s0 s6 = (s7, e7))
    (h8 : env.SaveDataQuality s7 = (s8, e8)) :
    (RunAnalysisOperations env s0).result = none ↔
      (e5 = none ∧ e6 = none ∧ e7 = none ∧ e8 = none) := by
  have had := adBlock_answer env s4
  rw [h5] at had
  have hagi := agiBlock_answer env s0 s6
  rw [h7] at hagi
  simp only [RunAnalysisOperations, h1, h2, h3, h4, had.2, had.1, h6, hagi.2, hagi.1, h8]
  cases e5 <;> cases e6 <;> cases e7 <;> cases e8 <;> simp [analysisStatus]

/-- C3 at two runs: one in which no tracked pass returns an error (the
early passes do) and the result is nil, and one in which only the
data-quality snapshot returns an error and the result is not nil. -/
theorem C3_success_iff_no_tracked_failure_witness :
    (RunAnalysisOperations (scriptedEnv false (some "fix") none none ["tag"]
        (Except.ok ⟨true⟩) (Except.ok ⟨true⟩) none none none none) ()).result = none ∧
    (RunAnalysisOperations (scriptedEnv false none none none []
        (Except.ok ⟨true⟩) (Except.ok ⟨true⟩) none none none (some "dq")) ()).result ≠ none :=
  ⟨(C3_success_iff_no_tracked_failure (scriptedEnv false (some "fix") none none ["tag"]
      (Except.ok ⟨true⟩) (Except.ok ⟨true⟩) none none none none)
      () () () () () () () () () (some "fix") none none ["tag"] none none none none
      rfl rfl rfl rfl rfl rfl rfl rfl).mpr ⟨rfl, rfl, rfl, rfl⟩,
    fun h => absurd ((C3_success_iff_no_tracked_failure (scriptedEnv false none none none []
      (Except.ok ⟨true⟩) (Except.ok ⟨true⟩) none none none (some "dq"))
      () () () () () () () () () none none none [] none none none (some "dq")
      rfl rfl rfl rfl rfl rfl rfl rfl).mp h).2.2.2 (by decide)⟩

/-- C4, as stated, fails: `FixWellKnownNodeTypes` returns an error, every
other pass returns none, and the run returns nil. -/
theorem C4_early_failure_reports_success :
    ((scriptedEnv false (some "fix") none none [] (Except.ok ⟨true⟩) (Except.ok ⟨true⟩)
        none none none none).FixWellKnownNodeTypes ()).2 = some "fix" ∧
    ((scriptedEnv false (some "fix") none none [] (Except.ok ⟨true⟩) (Except.ok ⟨true⟩)
        none none none none).RunDomainAssociations ()).2 = none ∧
    (RunAnalysisOperations (scriptedEnv false (some "fix") none none []
        (Except.ok ⟨true⟩) (Except.ok ⟨true⟩) none none none none) ()).result = none ∧
    (RunAnalysisOperations (scriptedEnv false (some "fix") none none []
        (Except.ok ⟨true⟩) (Except.ok ⟨true⟩) none none none none) ()).collectedErrors =
      ["fix well known node types failed: fix"] := by
  decide

/-- C4, amended.  In every run in which at least one of `ad.Post`,
`azure.Post`, the asset-group-isolation pass and the data-quality pass
returns an error while at least one of those four returns none,
`RunAnalysisOperations` returns `ErrAnalysisPartiallyCompleted`.  An error
of one of the four earlier passes is collected and logged, and the returned
status does not depend on it: when none of the four later passes returns an
error the run returns nil whatever the earlier passes returned. -/
theorem C4_tracked_mixed_partially_completed {σ : Type} (env : Env σ)
    (s0 s1 s2 s3 s4 s5 s6 s7 s8 : σ) (e1 e2 e3 : Option String) (errs : List String)
    (e5 e6 e7 e8 : Option String)
    (h1 : env.FixWellKnownNodeTypes s0 = (s1, e1))
    (h2 : env.RunDomainAssociations s1 = (s2, e2))
    (h3 : env.LinkWellKnownNodes s2 = (s3, e3))
    (h4 : env.TagAssetGroupsAndTierZero s3 = (s4, errs))
    (h5 : adPostAnswer env s4 = (s5, e5))
    (h6 : env.AzurePost s5 = (s6, e6))
    (h7 : agiAnswer env s0 s6 = (s7, e7))
    (h8 : env.SaveDataQuality s7 = (s8, e8)) :
    ((∃ e ∈ [e5, e6, e7, e8], e ≠ none) → (∃ e ∈ [e5, e6, e7, e8], e = none) →
      (RunAnalysisOperations env s0).result =
        some AnalysisError.ErrAnalysisPartiallyCompleted) ∧
    (e5 = none → e6 = none → e7 = none → e8 = none →
      (RunAnalysisOperations env s0).result = none) ∧
    (∀ err, e1 = some err →
      "fix well known node types failed: " ++ err ∈
        (RunAnalysisOperations env s0).collectedErrors) ∧
    (∀ err, e2 = some err →
      "domain association and pruning failed: " ++ err ∈
        (RunAnalysisOperations env s0).collectedErrors) ∧
    (∀ err, e3 = some err →
      "well known group linking failed: " ++ err ∈
        (RunAnalysisOperations env s0).collectedErrors) ∧
    (∀ err ∈ errs,
      "tagging asset groups and tier zero failed: " ++ err ∈
        (RunAnalysisOperations env s0).collectedErrors) ∧
    (∀ msg ∈ (RunAnalysisOperations env s0).collectedErrors,
      "Analysis error encountered: " ++ msg ∈ (RunAnalysisOperations env s0).logged) := by
  have had := adBlock_answer env s4
  rw [h5] at had
  have hagi := agiBlock_answer env s0 s6
  rw [h7] at hagi
  have hres : (RunAnalysisOperations env s0).result =
      analysisStatus e5.isSome e6.isSome e7.isSome e8.isSome := by
    simp only [RunAnalysisOperations, h1, h2, h3, h4, had.2, had.1, h6, hagi.2, hagi.1, h8]
  refine ⟨?_, ?_, ?_, ?_, ?_, ?_, ?_⟩
  · rw [hres]
    cases e5 <;> cases e6 <;> cases e7 <;> cases e8 <;> simp [analysisStatus]
  · rintro rfl rfl rfl rfl
    rw [hres]
    rfl
  · rintro err rfl
    simp [RunAnalysisOperations, h1, wrapErr]
  · rintro err rfl
    simp [RunAnalysisOperations, h1, h2, wrapErr]
  · rintro err rfl
    simp [RunAnalysisOperations, h1, h2, h3, wrapErr]
  · intro err herr
    simp only [RunAnalysisOperations, h1, h2, h3, h4, List.mem_append, List.mem_map]
    exact Or.inl (Or.inl (Or.inl (Or.inl (Or.inr ⟨err, herr, rfl⟩))))
  · intro msg hmsg
    exact List.mem_map.mpr ⟨msg, hmsg, rfl⟩

/-- The amended C4 at a run with tiering enabled in which every pass that is
called returns an error: asset-group isolation is not called, so the status
is partial completion, and the error of the first pass is collected. -/
theorem C4_tracked_mixed_partially_completed_witness :
    (RunAnalysisOperations (scriptedEnv true (some "fix") none none ["tag"]
        (Except.ok ⟨true⟩) (Except.ok ⟨true⟩) (some "ad") (some "azure") (some "agi")
        (some "dq")) ()).result = some AnalysisError.ErrAnalysisPartiallyCompleted :=
  (C4_tracked_mixed_partially_completed (scriptedEnv true (some "fix") none none ["tag"]
      (Except.ok ⟨true⟩) (Except.ok ⟨true⟩) (some "ad") (some "azure") (some "agi")
      (some "dq")) () () () () () () () () () (some "fix") none none ["tag"]
    (some "ad") (some "azure") none (some "dq") rfl rfl rfl rfl rfl rfl rfl rfl).1
    ⟨some "ad", by decide, by decide⟩ ⟨none, by decide, rfl⟩

/-- C5: take any run in which both feature-flag lookups succeed, whatever
each pass returns.  The store the run leaves is the one obtained by applying
the eight passes once each, in pipeline order, each to the store the pass
before it left (the asset-group-isolation pass exactly when tiering is
disabled); the calls made are these, each with the outcome the pass
returned; and every pass is called exactly once. -/
theorem C5_every_pass_invoked_once {σ : Type} (env : Env σ)
    (s0 s1 s2 s3 s4 s5 s6 s7 s8 : σ) (e1 e2 e3 : Option String) (errs : List String)
    (adcsFlag ntlmFlag : FeatureFlag) (e5 e6 e7 e8 : Option String)
    (h1 : env.FixWellKnownNodeTypes s0 = (s1, e1))
    (h2 : env.RunDomainAssociations s1 = (s2, e2))
    (h3 : env.LinkWellKnownNodes s2 = (s3, e3))
    (h4 : env.TagAssetGroupsAndTierZero s3 = (s4, errs))
    (hadcs : env.GetFlagByKey FlagKey.FeatureAdcs s4 = Except.ok adcsFlag)
    (hntlm : env.GetFlagByKey FlagKey.FeatureNTLMPostProcessing s4 = Except.ok ntlmFlag)
    (h5 : env.ADPost adcsFlag.Enabled (env.GetCitrixRDPSupport s4) ntlmFlag.Enabled s4 =
      (s5, e5))
    (h6 : env.AzurePost s5 = (s6, e6))
    (h7 : (if env.GetTieringEnabled s0 then (s6, none)
      else env.RunAssetGroupIsolationCollections s6) = (s7, e7))
    (h8 : env.SaveDataQuality s7 = (s8, e8)) :
    (RunAnalysisOperations env s0).state = s8 ∧
    (RunAnalysisOperations env s0).trace =
      [Event.pass Pass.FixWellKnownNodeTypes e1.isSome,
       Event.pass Pass.RunDomainAssociations e2.isSome,
       Event.pass Pass.LinkWellKnownNodes e3.isSome,
       Event.pass Pass.TagAssetGroupsAndTierZero (decide (0 < errs.length)),
       Event.flagLookup FlagKey.FeatureAdcs false,
       Event.flagLookup FlagKey.FeatureNTLMPostProcessing false,
       Event.pass Pass.ADPost e5.isSome,
       Event.pass Pass.AzurePost e6.isSome] ++
      (if env.GetTieringEnabled s0 then []
        else [Event.pass Pass.RunAssetGroupIsolationCollections e7.isSome]) ++
      [Event.pass Pass.SaveDataQuality e8.isSome] ∧
    passesInvoked (RunAnalysisOperations env s0) =
        pipelineOrder.filter (fun p =>
          !(decide (p = Pass.RunAssetGroupIsolationCollections) && env.GetTieringEnabled s0)) ∧
    (∀ p, p ≠ Pass.RunAssetGroupIsolationCollections →
      (passesInvoked (RunAnalysisOperations env s0)).count p = 1) ∧
    (passesInvoked (RunAnalysisOperations env s0)).count
        Pass.RunAssetGroupIsolationCollections =
      if env.GetTieringEnabled s0 then 0 else 1 := by
  have hagi : agiAnswer env s0 s6 = (s7, e7) := h7
  have had := adBlock_of_flags env s4 s5 adcsFlag ntlmFlag e5 hadcs hntlm h5
  have hblock := agiBlock_answer env s0 s6
  have htr := agiBlock_trace env s0 s6
  rw [hagi] at hblock htr
  have hstate : (RunAnalysisOperations env s0).state = s8 := by
    simp only [RunAnalysisOperations, h1, h2, h3, h4, had, h6, hblock.1, h8]
  have htrace : (RunAnalysisOperations env s0).trace =
      [Event.pass Pass.FixWellKnownNodeTypes e1.isSome,
       Event.pass Pass.RunDomainAssociations e2.isSome,
       Event.pass Pass.LinkWellKnownNodes e3.isSome,
       Event.pass Pass.TagAssetGroupsAndTierZero (decide (0 < errs.length)),
       Event.flagLookup FlagKey.FeatureAdcs false,
       Event.flagLookup FlagKey.FeatureNTLMPostProcessing false,
       Event.pass Pass.ADPost e5.isSome,
       Event.pass Pass.AzurePost e6.isSome] ++
      (if env.GetTieringEnabled s0 then []
        else [Event.pass Pass.RunAssetGroupIsolationCollections e7.isSome]) ++
      [Event.pass Pass.SaveDataQuality e8.isSome] := by
    simp only [RunAnalysisOperations, h1, h2, h3, h4, had, h6, htr, hblock.1, h8]
    simp
  refine ⟨hstate, htrace, ?_⟩
  simp only [passesInvoked, htrace]
  cases env.GetTieringEnabled s0
  · refine ⟨by simp [Event.calledPass, pipelineOrder], ?_, by simp [Event.calledPass]⟩
    intro p _
    cases p <;> simp [Event.calledPass]
  · refine ⟨by simp [Event.calledPass, pipelineOrder], ?_, by simp [Event.calledPass]⟩
    intro p hp
    cases p <;> first | exact absurd rfl hp | simp [Event.calledPass]

/-- C5 at a run with tiering disabled in which every pass returns an error,
over the store that logs the passes applied to it: the store left is the
eight passes of the pipeline, each once, in order. -/
theorem C5_every_pass_invoked_once_witness :
    (RunAnalysisOperations (recordingEnv false (some "fix") (some "dom") (some "link")
        ["tag"] (Except.ok ⟨true⟩) (Except.ok ⟨true⟩) (some "ad") (some "azure")
        (some "agi") (some "dq")) []).state = pipelineOrder :=
  (C5_every_pass_invoked_once (recordingEnv false (some "fix") (some "dom") (some "link")
      ["tag"] (Except.ok ⟨true⟩) (Except.ok ⟨true⟩) (some "ad") (some "azure")
      (some "agi") (some "dq")) []
    [Pass.FixWellKnownNodeTypes]
    [Pass.FixWellKnownNodeTypes, Pass.RunDomainAssociations]
    [Pass.FixWellKnownNodeTypes, Pass.RunDomainAssociations, Pass.LinkWellKnownNodes]
    [Pass.FixWellKnownNodeTypes, Pass.RunDomainAssociations, Pass.LinkWellKnownNodes,
      Pass.TagAssetGroupsAndTierZero]
    [Pass.FixWellKnownNodeTypes, Pass.RunDomainAssociations, Pass.LinkWellKnownNodes,
      Pass.TagAssetGroupsAndTierZero, Pass.ADPost]
    [Pass.FixWellKnownNodeTypes, Pass.RunDomainAssociations, Pass.LinkWellKnownNodes,
      Pass.TagAssetGroupsAndTierZero, Pass.ADPost, Pass.AzurePost]
    [Pass.FixWellKnownNodeTypes, Pass.RunDomainAssociations, Pass.LinkWellKnownNodes,
      Pass.TagAssetGroupsAndTierZero, Pass.ADPost, Pass.AzurePost,
      Pass.RunAssetGroupIsolationCollections]
    pipelineOrder
    (some "fix") (some "dom") (some "link") ["tag"] ⟨true⟩ ⟨true⟩
    (some "ad") (some "azure") (some "agi") (some "dq")
    rfl rfl rfl rfl rfl rfl rfl rfl rfl rfl).1

end datapipe

namespace ad

theorem applySkipLimit_zero (xs : List Nat) : applySkipLimit 0 0 xs = xs := by
  simp [applySkipLimit]

theorem mem_linkedGPOs (g : Graph) (c : Nat) (b : Bool) (G : Nat) :
    G ∈ linkedGPOs g c b ↔
      ∃ r ∈ g.relationships, r.kind = RelKind.GPLink ∧ r.startID = G ∧ r.endID = c ∧
        (r.enforced = true ∨ b = false) := by
  simp only [linkedGPOs, List.mem_map, List.mem_filter, Bool.and_eq_true, beq_iff_eq,
    Bool.or_eq_true, Bool.not_eq_true']
  constructor
  · rintro ⟨r, ⟨hr, ⟨hk, he⟩, hb⟩, hs⟩
    exact ⟨r, hr, hk, hs, he, hb⟩
  · rintro ⟨r, hr, hk, hs, he, hb⟩
    exact ⟨r, ⟨hr, ⟨hk, he⟩, hb⟩, hs⟩

/-- What the upward walk collects: a GPO is collected exactly through a
GPLink to some level of the chain that is enforced, or that is reached
with no blocking so far (`blocked = false` and no blocking level below). -/
theorem mem_walkUp (g : Graph) (G : Nat) (chain : List Nat) :
    ∀ blocked : Bool, G ∈ walkUp g blocked chain ↔
      ∃ r ∈ g.relationships, r.kind = RelKind.GPLink ∧ r.startID = G ∧
        ∃ i, chain[i]? = some r.endID ∧
          (r.enforced = true ∨
            (blocked = false ∧ ∀ c ∈ chain.take i, blocksInheritance g c = false)) := by
  induction chain with
  | nil => intro blocked; simp [walkUp]
  | cons c rest ih =>
    intro blocked
    simp only [walkUp, List.mem_append, mem_linkedGPOs, ih]
    constructor
    · rintro (⟨r, hr, hk, hs, he, hb⟩ | ⟨r, hr, hk, hs, i, hi, hb⟩)
      · refine ⟨r, hr, hk, hs, 0, by simp [he], ?_⟩
        rcases hb with hb | hb
        · exact Or.inl hb
        · exact Or.inr ⟨hb, by simp⟩
      · refine ⟨r, hr, hk, hs, i + 1, by simpa using hi, ?_⟩
        rcases hb with hb | ⟨hb, hall⟩
        · exact Or.inl hb
        · right
          simp only [Bool.or_eq_false_iff] at hb
          refine ⟨hb.1, ?_⟩
          intro x hx
          simp only [List.take_succ_cons, List.mem_cons] at hx
          rcases hx with rfl | hx
          · exact hb.2
          · exact hall x hx
    · rintro ⟨r, hr, hk, hs, i, hi, hb⟩
      cases i with
      | zero =>
        left
        simp only [List.getElem?_cons_zero, Option.some.injEq] at hi
        refine ⟨r, hr, hk, hs, hi.symm, ?_⟩
        rcases hb with hb | ⟨hb, _⟩
        · exact Or.inl hb
        · exact Or.inr hb
      | succ i =>
        right
        simp only [List.getElem?_cons_succ] at hi
        refine ⟨r, hr, hk, hs, i, hi, ?_⟩
        rcases hb with hb | ⟨hb, hall⟩
        · exact Or.inl hb
        · right
          simp only [List.take_succ_cons, List.mem_cons, forall_eq_or_imp] at hall
          exact ⟨by simp [hb, hall.1], hall.2⟩

theorem parentOf_some_mem (g : Graph) (x p : Nat) (h : parentOf g x = some p) :
    x ∈ g.relationships.map (fun r => r.endID) := by
  simp only [parentOf, Option.map_eq_some'] at h
  obtain ⟨r, hr, _⟩ := h
  have hmem := List.mem_of_find?_eq_some hr
  have hprop := List.find?_some hr
  simp only [Bool.and_eq_true, beq_iff_eq] at hprop
  exact List.mem_map.mpr ⟨r, hmem, hprop.2⟩

/-- The upward walk either ends at a node without a container, or it used
all its fuel and every node met still has a container. -/
theorem ancestors_end (g : Graph) :
    ∀ (fuel id : Nat),
      parentOf g ((ancestors g fuel id).getLastD id) = none ∨
      ((ancestors g fuel id).length = fuel ∧
        ∀ x ∈ id :: ancestors g fuel id, ∃ p, parentOf g x = some p) := by
  intro fuel
  induction fuel with
  | zero =>
    intro id
    cases h : parentOf g id with
    | none => left; simp only [ancestors, List.getLastD_nil]; exact h
    | some p => right; simp [ancestors, h]
  | succ fuel ih =>
    intro id
    cases h : parentOf g id with
    | none => left; simp only [ancestors, h, List.getLastD_nil]
    | some p =>
      rcases ih p with h1 | ⟨h1, h2⟩
      · left
        simp only [ancestors, h, List.getLastD_cons]
        exact h1
      · right
        refine ⟨by simp [ancestors, h, h1], ?_⟩
        intro x hx
        simp only [ancestors, h, List.mem_cons] at hx
        rcases hx with rfl | hx
        · exact ⟨p, h⟩
        · exact h2 x (List.mem_cons.mpr hx)

/-- The fuel of `containmentChain` is enough: when the walk meets no node
twice (no containment cycle), the chain ends at a root, a node that has no
container. -/
theorem containmentChain_reaches_root (g : Graph) (anchor : Nat)
    (h : (anchor :: containmentChain g anchor).Nodup) :
    parentOf g ((containmentChain g anchor).getLastD anchor) = none := by
  rcases ancestors_end g g.relationships.length anchor with h1 | ⟨h1, h2⟩
  · exact h1
  · exfalso
    have hsub : anchor :: containmentChain g anchor ⊆
        g.relationships.map (fun r => r.endID) := by
      intro x hx
      obtain ⟨p, hp⟩ := h2 x hx
      exact parentOf_some_mem g x p hp
    have hle := (List.subperm_of_subset h hsub).length_le
    simp only [List.length_cons, List.length_map, containmentChain, h1] at hle
    omega

/-- C7: on the GPOEnforcement harness, `FetchEnforcedGPOs` and
`FetchAllEnforcedGPOs` return exactly {GPOEnforced} for an anchor at or
below OU C (OU C, User C) and exactly {GPOEnforced, GPOUnenforced} for an
anchor at or below OU D (OU D, User D). -/
theorem C7_harness_enforced_gpos :
    (∀ anchor ∈ [GPOEnforcement.OrganizationalUnitC, GPOEnforcement.UserC],
      List.Perm (FetchEnforcedGPOs GPOEnforcementGraph anchor 0 0)
        [GPOEnforcement.GPOEnforced] ∧
      List.Perm (FetchAllEnforcedGPOs GPOEnforcementGraph [anchor])
        [GPOEnforcement.GPOEnforced]) ∧
    (∀ anchor ∈ [GPOEnforcement.OrganizationalUnitD, GPOEnforcement.UserD],
      List.Perm (FetchEnforcedGPOs GPOEnforcementGraph anchor 0 0)
        [GPOEnforcement.GPOEnforced, GPOEnforcement.GPOUnenforced] ∧
      List.Perm (FetchAllEnforcedGPOs GPOEnforcementGraph [anchor])
        [GPOEnforcement.GPOEnforced, GPOEnforcement.GPOUnenforced]) := by
  decide

/-- In a graph where every node has at most one container, the container a
node lies in is the one `parentOf` finds. -/
theorem parentOf_of_isContainedIn (g : Graph) (hsingle : SingleContainer g) (c p : Nat)
    (h : IsContainedIn g c p) : parentOf g c = some p := by
  obtain ⟨r, hr, hk, hs, he⟩ := h
  unfold parentOf
  cases hfind : g.relationships.find?
      (fun r => r.kind == RelKind.Contains && r.endID == c) with
  | none =>
    have := List.find?_eq_none.mp hfind r hr
    simp [hk, he] at this
  | some r0 =>
    have hmem := List.mem_of_find?_eq_some hfind
    have hprop := List.find?_some hfind
    simp only [Bool.and_eq_true, beq_iff_eq] at hprop
    have := hsingle r0 hmem r hr hprop.1 hk (by rw [hprop.2, he])
    simp [this, hs]

/-- The upward walk follows a given chain of containers for as long as its
fuel lasts. -/
theorem ancestors_of_chain (g : Graph) :
    ∀ (chain : List Nat) (fuel a : Nat),
      List.Chain (fun c p => parentOf g c = some p) a chain → chain.length ≤ fuel →
      ∃ rest, ancestors g fuel a = chain ++ rest := by
  intro chain
  induction chain with
  | nil => intro fuel a _ _; exact ⟨_, rfl⟩
  | cons p chain ih =>
    intro fuel a hchain hlen
    cases fuel with
    | zero => simp at hlen
    | succ fuel =>
      rw [List.chain_cons] at hchain
      obtain ⟨rest, hrest⟩ := ih fuel p hchain.2 (by simpa using hlen)
      exact ⟨rest, by simp [ancestors, hchain.1, hrest]⟩

/-- A chain of containers above the anchor that meets no node twice has at
most as many steps as the graph has relationships: every step is a
`Contains` relationship ending in a different node. -/
theorem chain_length_le (g : Graph) (anchor : Nat) (chain : List Nat)
    (hchain : List.Chain (IsContainedIn g) anchor chain)
    (hnodup : (anchor :: chain).Nodup) :
    chain.length ≤ g.relationships.length := by
  have hchildren : ∀ c ∈ (anchor :: chain).dropLast,
      c ∈ g.relationships.map (fun r => r.endID) := by
    have aux : ∀ (l : List Nat) (a : Nat), List.Chain (IsContainedIn g) a l →
        ∀ c ∈ (a :: l).dropLast, c ∈ g.relationships.map (fun r => r.endID) := by
      intro l
      induction l with
      | nil => intro a _ c hc; simp at hc
      | cons p l ih =>
        intro a hc c hmem
        rw [List.chain_cons] at hc
        rw [List.dropLast_cons₂, List.mem_cons] at hmem
        rcases hmem with rfl | hmem
        · obtain ⟨r, hr, _, _, he⟩ := hc.1
          exact List.mem_map.mpr ⟨r, hr, he⟩
        · exact ih p hc.2 c hmem
    exact aux chain anchor hchain
  have hnd : ((anchor :: chain).dropLast).Nodup :=
    List.Nodup.sublist (List.dropLast_sublist _) hnodup
  have hle := (List.subperm_of_subset hnd hchildren).length_le
  simpa using hle

end ad

namespace ad

theorem mem_directMembers (g : Graph) (grp m : Nat) :
    m ∈ directMembers g grp ↔ IsMemberOf g m grp := by
  simp only [directMembers, IsMemberOf, List.mem_map, List.mem_filter, Bool.and_eq_true,
    beq_iff_eq]
  constructor
  · rintro ⟨r, ⟨hr, hk, he⟩, hs⟩
    exact ⟨r, hr, hk, hs, he⟩
  · rintro ⟨r, hr, hk, hs, he⟩
    exact ⟨r, ⟨hr, hk, he⟩, hs⟩

theorem directMembers_subset_starts (g : Graph) (grp : Nat) :
    directMembers g grp ⊆ g.relationships.map (fun r => r.startID) := by
  intro m hm
  simp only [directMembers, List.mem_map, List.mem_filter] at hm ⊢
  obtain ⟨r, ⟨hr, _⟩, hs⟩ := hm
  exact ⟨r, hr, hs⟩

/-- The invariant of the expansion and what it yields: with enough fuel the
result has no duplicates, extends `collected`, is closed under direct
membership, holds the direct members of the frontier, and every node in it
was already collected or is a transitive member of a frontier node. -/
theorem expandMembers_spec (g : Graph) :
    ∀ (fuel : Nat) (frontier collected : List Nat),
      collected.Nodup →
      collected ⊆ g.relationships.map (fun r => r.startID) →
      (∀ v ∈ collected, v ∈ frontier ∨ directMembers g v ⊆ collected) →
      2 * (g.relationships.length - collected.length) + frontier.length ≤ fuel →
      (expandMembers g fuel frontier collected).Nodup ∧
      collected ⊆ expandMembers g fuel frontier collected ∧
      (∀ f ∈ frontier, directMembers g f ⊆ expandMembers g fuel frontier collected) ∧
      (∀ v ∈ expandMembers g fuel frontier collected,
        directMembers g v ⊆ expandMembers g fuel frontier collected) ∧
      (∀ x ∈ expandMembers g fuel frontier collected,
        x ∈ collected ∨ ∃ f ∈ frontier, Relation.TransGen (IsMemberOf g) x f) := by
  intro fuel
  induction fuel with
  | zero =>
    intro frontier collected hnd _ hinv hfuel
    have hfr : frontier = [] := by
      have : frontier.length = 0 := by omega
      exact List.length_eq_zero.mp this
    subst hfr
    simp only [expandMembers]
    refine ⟨hnd, fun _ h => h, by simp, ?_, fun x hx => Or.inl hx⟩
    intro v hv
    rcases hinv v hv with h | h
    · simp at h
    · exact h
  | succ fuel ih =>
    intro frontier collected hnd hsub hinv hfuel
    cases frontier with
    | nil =>
      simp only [expandMembers]
      refine ⟨hnd, fun _ h => h, by simp, ?_, fun x hx => Or.inl hx⟩
      intro v hv
      rcases hinv v hv with h | h
      · simp at h
      · exact h
    | cons n frontier =>
      simp only [expandMembers]
      generalize hfresh :
        (directMembers g n).dedup.filter (fun m => decide (m ∉ collected)) = fresh
      have hfresh_mem : ∀ m, m ∈ fresh ↔ m ∈ directMembers g n ∧ m ∉ collected := by
        intro m
        rw [← hfresh]
        simp [List.mem_filter, List.mem_dedup]
      have hfresh_nd : fresh.Nodup := by
        rw [← hfresh]
        exact (List.nodup_dedup _).filter _
      have hnd' : (collected ++ fresh).Nodup := by
        rw [List.nodup_append]
        refine ⟨hnd, hfresh_nd, ?_⟩
        intro a ha hb
        exact ((hfresh_mem a).mp hb).2 ha
      have hsub' : collected ++ fresh ⊆ g.relationships.map (fun r => r.startID) := by
        intro a ha
        rcases List.mem_append.mp ha with h | h
        · exact hsub h
        · exact directMembers_subset_starts g n ((hfresh_mem a).mp h).1
      have hlen : (collected ++ fresh).length ≤ g.relationships.length := by
        have := (List.subperm_of_subset hnd' hsub').length_le
        simpa using this
      have hinv' : ∀ v ∈ collected ++ fresh,
          v ∈ frontier ++ fresh ∨ directMembers g v ⊆ collected ++ fresh := by
        intro v hv
        rcases List.mem_append.mp hv with h | h
        · rcases hinv v h with h1 | h1
          · rcases List.mem_cons.mp h1 with rfl | h2
            · right
              intro m hm
              by_cases hc : m ∈ collected
              · exact List.mem_append_left _ hc
              · exact List.mem_append_right _ ((hfresh_mem m).mpr ⟨hm, hc⟩)
            · exact Or.inl (List.mem_append_left _ h2)
          · exact Or.inr (fun m hm => List.mem_append_left _ (h1 hm))
        · exact Or.inl (List.mem_append_right _ h)
      have hfuel' : 2 * (g.relationships.length - (collected ++ fresh).length) +
          (frontier ++ fresh).length ≤ fuel := by
        simp only [List.length_append, List.length_cons] at hfuel hlen ⊢
        omega
      obtain ⟨r1, r2, r3, r4, r5⟩ := ih (frontier ++ fresh) (collected ++ fresh)
        hnd' hsub' hinv' hfuel'
      refine ⟨r1, fun a ha => r2 (List.mem_append_left _ ha), ?_, r4, ?_⟩
      · intro f hf m hm
        rcases List.mem_cons.mp hf with rfl | h
        · by_cases hc : m ∈ collected
          · exact r2 (List.mem_append_left _ hc)
          · exact r2 (List.mem_append_right _ ((hfresh_mem m).mpr ⟨hm, hc⟩))
        · exact r3 f (List.mem_append_left _ h) hm
      · intro x hx
        rcases r5 x hx with h | ⟨f, hf, hreach⟩
        · rcases List.mem_append.mp h with h1 | h1
          · exact Or.inl h1
          · exact Or.inr ⟨n, List.mem_cons_self _ _,
              Relation.TransGen.single ((mem_directMembers g n x).mp ((hfresh_mem x).mp h1).1)⟩
        · rcases List.mem_append.mp hf with h1 | h1
          · exact Or.inr ⟨f, List.mem_cons_of_mem _ h1, hreach⟩
          · exact Or.inr ⟨n, List.mem_cons_self _ _,
              Relation.TransGen.tail hreach
                ((mem_directMembers g n f).mp ((hfresh_mem f).mp h1).1)⟩

/-- C9: on every finite graph `FetchGroupMembers` is a total function whose
result (unbounded, `0, 0`) contains every transitive member of the group
along `MemberOf` relationships exactly once and contains nothing else; on
the two-group cycle (A member of B, B member of A) the members of A contain
B exactly once. -/
theorem C9_group_members_transitive_once (g : Graph) (root : Nat) :
    (∀ m, Relation.TransGen (IsMemberOf g) m root →
      (FetchGroupMembers g root 0 0).count m = 1) ∧
    (∀ m, m ∈ FetchGroupMembers g root 0 0 → Relation.TransGen (IsMemberOf g) m root) ∧
    (FetchGroupMembers g root 0 0).Nodup ∧
    (FetchGroupMembers membershipCycle 1 0 0).count 2 = 1 := by
  obtain ⟨r1, _, r3, r4, r5⟩ := expandMembers_spec g (2 * g.relationships.length + 1)
    [root] [] List.nodup_nil (by simp) (by simp) (by simp)
  simp only [FetchGroupMembers, applySkipLimit_zero]
  refine ⟨?_, ?_, r1, by decide⟩
  · intro m hreach
    apply List.count_eq_one_of_mem r1
    induction hreach using Relation.TransGen.head_induction_on with
    | base h => exact r3 root (List.mem_singleton_self _) ((mem_directMembers g root _).mpr h)
    | ih h _ hc => exact r4 _ hc ((mem_directMembers g _ _).mpr h)
  · intro m hm
    rcases r5 m hm with h | ⟨f, hf, hreach⟩
    · simp at h
    · rw [List.mem_singleton] at hf
      exact hf ▸ hreach

end ad

namespace ad

theorem mem_target_kind (p : DerivedEdgePass) (g : Graph) (r : Relationship)
    (h : r ∈ p.target g) : r.kind ∈ p.kinds := by
  simp only [DerivedEdgePass.target, List.mem_dedup, List.mem_filter,
    decide_eq_true_eq] at h
  exact h.2

/-- A run leaves the edges of the other kinds as they were. -/
theorem baseGraph_run (p : DerivedEdgePass) (g : Graph) :
    p.baseGraph (p.run g) = p.baseGraph g := by
  have hmissing : (List.filter (fun r => decide (r ∉ g.relationships)) (p.target g)).filter
      (fun r => decide (r.kind ∉ p.kinds)) = [] := by
    rw [List.filter_eq_nil_iff]
    intro r hr
    have := mem_target_kind p g r (List.mem_filter.mp hr).1
    simpa using this
  simp only [DerivedEdgePass.baseGraph, DerivedEdgePass.run, List.filter_append,
    List.filter_filter, hmissing, List.append_nil]
  congr 1
  apply List.filter_congr
  intro r _
  by_cases hk : r.kind ∈ p.kinds <;> simp [hk]

/-- The target set is the same before and after a run. -/
theorem target_run (p : DerivedEdgePass) (g : Graph) : p.target (p.run g) = p.target g := by
  simp only [DerivedEdgePass.target, baseGraph_run]

/-- C10: for every derived-edge pass (whatever its kinds and its target
computation, so in particular the DCSync, SyncLAPSPassword, Owns/WriteOwner,
GPOAppliesTo/CanApplyGPO and HasTrustKeys passes) and every graph, running
the pass a second time leaves the relationships exactly as the first run
left them, each with the same multiplicity; and on a base graph (one holding
no derived edge of the pass yet) the derived edges after the runs contain no
duplicate. -/
theorem C10_derived_edge_pass_idempotent (p : DerivedEdgePass) (g : Graph) :
    (p.run (p.run g)).relationships = (p.run g).relationships ∧
    (∀ r, (p.derivedEdges (p.run (p.run g))).count r = (p.derivedEdges (p.run g)).count r) ∧
    (p.derivedEdges (p.run (p.run (p.baseGraph g)))).Nodup := by
  have hidem : ∀ g : Graph, (p.run (p.run g)).relationships = (p.run g).relationships := by
    intro g
    have hkept : ∀ r ∈ (p.run g).relationships,
        (decide (r.kind ∉ p.kinds) || decide (r ∈ p.target g)) = true := by
      intro r hr
      simp only [DerivedEdgePass.run, List.mem_append, List.mem_filter] at hr
      rcases hr with ⟨_, h⟩ | ⟨h, _⟩
      · exact h
      · simp [h]
    have hmissing : (p.target g).filter (fun r => decide (r ∉ (p.run g).relationships)) = [] := by
      rw [List.filter_eq_nil_iff]
      intro r hr
      simp only [DerivedEdgePass.run, List.mem_append, List.mem_filter, decide_eq_true_eq,
        Bool.or_eq_true, decide_not, Bool.not_eq_true', decide_eq_false_iff_not, not_not]
      by_cases hg : r ∈ g.relationships
      · exact Or.inl ⟨hg, Or.inr hr⟩
      · exact Or.inr ⟨hr, hg⟩
    show List.filter _ (p.run g).relationships ++ List.filter _ (p.target (p.run g)) = _
    rw [target_run, hmissing, List.append_nil, List.filter_eq_self]
    exact hkept
  refine ⟨hidem g, ?_, ?_⟩
  · intro r
    simp only [DerivedEdgePass.derivedEdges, hidem g]
  · have hbase : ∀ r ∈ (p.baseGraph g).relationships, r.kind ∉ p.kinds := by
      intro r hr
      simp only [DerivedEdgePass.baseGraph, List.mem_filter, decide_eq_true_eq] at hr
      exact hr.2
    simp only [DerivedEdgePass.derivedEdges, hidem (p.baseGraph g)]
    simp only [DerivedEdgePass.run, List.filter_append]
    have h1 : List.filter (fun r => decide (r.kind ∈ p.kinds))
        (List.filter (fun r => decide (r.kind ∉ p.kinds) ||
          decide (r ∈ p.target (p.baseGraph g))) (p.baseGraph g).relationships) = [] := by
      rw [List.filter_eq_nil_iff]
      intro r hr
      have := hbase r (List.mem_filter.mp hr).1
      simp [this]
    rw [h1, List.nil_append]
    exact ((List.nodup_dedup _).filter _).filter _

end ad

namespace ad

/-- C11: for every derived-edge pass and every graph, also one that already
holds derived edges of a prior run: after the pass has run, the derived
edges of the pass's kinds in the graph are exactly the target set computed
from the current state of the graph; a derived edge that is no longer in the
target set is gone, every edge of the target set is present, and the edges
of the other kinds are untouched. -/
theorem C11_rerun_reconciles_to_target (p : DerivedEdgePass) (g : Graph) :
    (∀ r, r ∈ p.derivedEdges (p.run g) ↔ r ∈ p.target g) ∧
    (∀ r ∈ p.derivedEdges g, r ∉ p.target g → r ∉ (p.run g).relationships) ∧
    (∀ r ∈ p.target g, r ∈ (p.run g).relationships) ∧
    p.baseGraph (p.run g) = p.baseGraph g := by
  refine ⟨?_, ?_, ?_, baseGraph_run p g⟩
  · intro r
    simp only [DerivedEdgePass.derivedEdges, DerivedEdgePass.run, List.mem_filter,
      List.mem_append, Bool.or_eq_true, decide_eq_true_eq]
    constructor
    · rintro ⟨(⟨_, hnk | ht⟩ | ⟨ht, _⟩), hk⟩
      · exact absurd hk hnk
      · exact ht
      · exact ht
    · intro ht
      refine ⟨?_, mem_target_kind p g r ht⟩
      by_cases hg : r ∈ g.relationships
      · exact Or.inl ⟨hg, Or.inr ht⟩
      · exact Or.inr ⟨ht, hg⟩
  · intro r hr hnt
    simp only [DerivedEdgePass.derivedEdges, List.mem_filter, decide_eq_true_eq] at hr
    simp only [DerivedEdgePass.run, List.mem_filter, List.mem_append, Bool.or_eq_true,
      decide_eq_true_eq]
    rintro (⟨_, hnk | ht⟩ | ⟨ht, _⟩)
    · exact hnk hr.2
    · exact hnt ht
    · exact hnt ht
  · intro r ht
    simp only [DerivedEdgePass.run, List.mem_filter, List.mem_append, Bool.or_eq_true,
      decide_eq_true_eq]
    by_cases hg : r ∈ g.relationships
    · exact Or.inl ⟨hg, Or.inr ht⟩
    · exact Or.inr ⟨ht, hg⟩

end ad

namespace ad

/-- The invariant of the generic breadth-first closure and what it yields:
when every `next n` lies within `bound` and the fuel covers
`2 * (bound.length - collected.length) + frontier.length`, the result has no
duplicates, extends `collected`, is closed under `next`, holds `next f` for
every frontier node `f`, and every node in it was already collected or is
reached from a frontier node by one or more `next` steps. -/
theorem expandVia_spec (next : Nat → List Nat) (bound : List Nat)
    (hbound : ∀ n, next n ⊆ bound) :
    ∀ (fuel : Nat) (frontier collected : List Nat),
      collected.Nodup →
      collected ⊆ bound →
      (∀ v ∈ collected, v ∈ frontier ∨ next v ⊆ collected) →
      2 * (bound.length - collected.length) + frontier.length ≤ fuel →
      (expandVia next fuel frontier collected).Nodup ∧
      collected ⊆ expandVia next fuel frontier collected ∧
      (∀ f ∈ frontier, next f ⊆ expandVia next fuel frontier collected) ∧
      (∀ v ∈ expandVia next fuel frontier collected,
        next v ⊆ expandVia next fuel frontier collected) ∧
      (∀ x ∈ expandVia next fuel frontier collected,
        x ∈ collected ∨ ∃ f ∈ frontier, Relation.TransGen (fun a b => a ∈ next b) x f) := by
  intro fuel
  induction fuel with
  | zero =>
    intro frontier collected hnd _ hinv hfuel
    have hfr : frontier = [] := List.length_eq_zero.mp (by omega)
    subst hfr
    simp only [expandVia]
    refine ⟨hnd, fun _ h => h, by simp, ?_, fun x hx => Or.inl hx⟩
    intro v hv
    rcases hinv v hv with h | h
    · simp at h
    · exact h
  | succ fuel ih =>
    intro frontier collected hnd hsub hinv hfuel
    cases frontier with
    | nil =>
      simp only [expandVia]
      refine ⟨hnd, fun _ h => h, by simp, ?_, fun x hx => Or.inl hx⟩
      intro v hv
      rcases hinv v hv with h | h
      · simp at h
      · exact h
    | cons n frontier =>
      simp only [expandVia]
      generalize hfresh : (next n).dedup.filter (fun m => decide (m ∉ collected)) = fresh
      have hfresh_mem : ∀ m, m ∈ fresh ↔ m ∈ next n ∧ m ∉ collected := by
        intro m
        rw [← hfresh]
        simp [List.mem_filter, List.mem_dedup]
      have hfresh_nd : fresh.Nodup := by
        rw [← hfresh]
        exact (List.nodup_dedup _).filter _
      have hnd' : (collected ++ fresh).Nodup := by
        rw [List.nodup_append]
        exact ⟨hnd, hfresh_nd, fun a ha hb => ((hfresh_mem a).mp hb).2 ha⟩
      have hsub' : collected ++ fresh ⊆ bound := by
        intro a ha
        rcases List.mem_append.mp ha with h | h
        · exact hsub h
        · exact hbound n ((hfresh_mem a).mp h).1
      have hlen : (collected ++ fresh).length ≤ bound.length :=
        (List.subperm_of_subset hnd' hsub').length_le
      have hinv' : ∀ v ∈ collected ++ fresh,
          v ∈ frontier ++ fresh ∨ next v ⊆ collected ++ fresh := by
        intro v hv
        rcases List.mem_append.mp hv with h | h
        · rcases hinv v h with h1 | h1
          · rcases List.mem_cons.mp h1 with rfl | h2
            · right
              intro m hm
              by_cases hc : m ∈ collected
              · exact List.mem_append_left _ hc
              · exact List.mem_append_right _ ((hfresh_mem m).mpr ⟨hm, hc⟩)
            · exact Or.inl (List.mem_append_left _ h2)
          · exact Or.inr (fun m hm => List.mem_append_left _ (h1 hm))
        · exact Or.inl (List.mem_append_right _ h)
      have hfuel' : 2 * (bound.length - (collected ++ fresh).length) +
          (frontier ++ fresh).length ≤ fuel := by
        simp only [List.length_append, List.length_cons] at hfuel hlen ⊢
        omega
      obtain ⟨r1, r2, r3, r4, r5⟩ := ih (frontier ++ fresh) (collected ++ fresh)
        hnd' hsub' hinv' hfuel'
      refine ⟨r1, fun a ha => r2 (List.mem_append_left _ ha), ?_, r4, ?_⟩
      · intro f hf m hm
        rcases List.mem_cons.mp hf with rfl | h
        · by_cases hc : m ∈ collected
          · exact r2 (List.mem_append_left _ hc)
          · exact r2 (List.mem_append_right _ ((hfresh_mem m).mpr ⟨hm, hc⟩))
        · exact r3 f (List.mem_append_left _ h) hm
      · intro x hx
        rcases r5 x hx with h | ⟨f, hf, hreach⟩
        · rcases List.mem_append.mp h with h1 | h1
          · exact Or.inl h1
          · exact Or.inr ⟨n, List.mem_cons_self _ _,
              Relation.TransGen.single ((hfresh_mem x).mp h1).1⟩
        · rcases List.mem_append.mp hf with h1 | h1
          · exact Or.inr ⟨f, List.mem_cons_of_mem _ h1, hreach⟩
          · exact Or.inr ⟨n, List.mem_cons_self _ _,
              Relation.TransGen.tail hreach ((hfresh_mem f).mp h1).1⟩

theorem mem_adjacent_outbound (g : Graph) (kind : RelKind) (n m : Nat) :
    m ∈ adjacent g kind Direction.Outbound n ↔
      ∃ r ∈ g.relationships, r.kind = kind ∧ r.startID = n ∧ r.endID = m := by
  simp only [adjacent, List.mem_map, List.mem_filter, Bool.and_eq_true, beq_iff_eq]
  constructor
  · rintro ⟨r, ⟨hr, hk, hs⟩, he⟩
    exact ⟨r, hr, hk, hs, he⟩
  · rintro ⟨r, hr, hk, hs, he⟩
    exact ⟨r, ⟨hr, hk, hs⟩, he⟩

theorem mem_adjacent_inbound (g : Graph) (kind : RelKind) (n m : Nat) :
    m ∈ adjacent g kind Direction.Inbound n ↔
      ∃ r ∈ g.relationships, r.kind = kind ∧ r.startID = m ∧ r.endID = n := by
  simp only [adjacent, List.mem_map, List.mem_filter, Bool.and_eq_true, beq_iff_eq]
  constructor
  · rintro ⟨r, ⟨hr, hk, he⟩, hs⟩
    exact ⟨r, hr, hk, hs, he⟩
  · rintro ⟨r, hr, hk, hs, he⟩
    exact ⟨r, ⟨hr, hk, he⟩, hs⟩

theorem adjacent_subset_endpoints (g : Graph) (kind : RelKind) (d : Direction) (n : Nat) :
    adjacent g kind d n ⊆ endpoints g := by
  intro m hm
  cases d with
  | Inbound =>
    obtain ⟨r, hr, _, hs, _⟩ := (mem_adjacent_inbound g kind n m).mp hm
    exact List.mem_append_left _ (List.mem_map.mpr ⟨r, hr, hs⟩)
  | Outbound =>
    obtain ⟨r, hr, _, _, he⟩ := (mem_adjacent_outbound g kind n m).mp hm
    exact List.mem_append_right _ (List.mem_map.mpr ⟨r, hr, he⟩)

/-- The closure from a single root holds exactly the nodes reached from the
root by one or more `next` steps, each once. -/
theorem expandVia_root (next : Nat → List Nat) (bound : List Nat)
    (hbound : ∀ n, next n ⊆ bound) (fuel root : Nat) (hfuel : 2 * bound.length + 1 ≤ fuel) :
    (expandVia next fuel [root] []).Nodup ∧
    ∀ m, m ∈ expandVia next fuel [root] [] ↔
      Relation.TransGen (fun a b => a ∈ next b) m root := by
  obtain ⟨r1, _, r3, r4, r5⟩ := expandVia_spec next bound hbound fuel [root] []
    List.nodup_nil (by simp) (by simp) (by simpa using hfuel)
  refine ⟨r1, fun m => ⟨?_, ?_⟩⟩
  · intro hm
    rcases r5 m hm with h | ⟨f, hf, hreach⟩
    · simp at h
    · rw [List.mem_singleton] at hf
      exact hf ▸ hreach
  · intro hreach
    induction hreach using Relation.TransGen.head_induction_on with
    | base h => exact r3 root (List.mem_singleton_self _) h
    | ih h _ hc => exact r4 _ hc h

/-- C13, as stated, fails on a two-way trust: Domain A is reached from
itself by following TrustedBy outbound (A to B, B to A), and is not in its
own outbound trust list. -/
theorem C13_anchor_on_trust_cycle_not_listed :
    Relation.TransGen (IsTrustedBy twoWayTrust) 1 1 ∧
    1 ∉ CreateDomainTrustListDelegate Direction.Outbound twoWayTrust 1 0 0 := by
  refine ⟨?_, by decide⟩
  have h12 : IsTrustedBy twoWayTrust 1 2 :=
    ⟨⟨1, 2, RelKind.TrustedBy, false⟩, by decide, rfl, rfl, rfl⟩
  have h21 : IsTrustedBy twoWayTrust 2 1 :=
    ⟨⟨2, 1, RelKind.TrustedBy, false⟩, by decide, rfl, rfl, rfl⟩
  exact Relation.TransGen.tail (Relation.TransGen.single h12) h21

/-- C13, amended: the outbound trust list of a domain D holds exactly the
domains other than D reached from D by following TrustedBy relationships
forward, the inbound list exactly those other than D from which D is
reached, each once; and for the one-way trust A -TrustedBy-> B the outbound
list of A holds B while the inbound list of A does not. -/
theorem C13_trust_lists_follow_direction (g : Graph) (D : Nat) :
    (∀ m, m ∈ CreateDomainTrustListDelegate Direction.Outbound g D 0 0 ↔
      m ≠ D ∧ Relation.TransGen (IsTrustedBy g) D m) ∧
    (∀ m, m ∈ CreateDomainTrustListDelegate Direction.Inbound g D 0 0 ↔
      m ≠ D ∧ Relation.TransGen (IsTrustedBy g) m D) ∧
    (CreateDomainTrustListDelegate Direction.Outbound g D 0 0).Nodup ∧
    (CreateDomainTrustListDelegate Direction.Inbound g D 0 0).Nodup ∧
    2 ∈ CreateDomainTrustListDelegate Direction.Outbound oneWayTrust 1 0 0 ∧
    2 ∉ CreateDomainTrustListDelegate Direction.Inbound oneWayTrust 1 0 0 := by
  have hout := expandVia_root (adjacent g RelKind.TrustedBy Direction.Outbound) (endpoints g)
    (adjacent_subset_endpoints g _ _) (2 * (endpoints g).length + 1) D (le_refl _)
  have hin := expandVia_root (adjacent g RelKind.TrustedBy Direction.Inbound) (endpoints g)
    (adjacent_subset_endpoints g _ _) (2 * (endpoints g).length + 1) D (le_refl _)
  have hrelOut : (fun a b => a ∈ adjacent g RelKind.TrustedBy Direction.Outbound b) =
      Function.swap (IsTrustedBy g) := by
    funext a b
    exact propext (mem_adjacent_outbound g RelKind.TrustedBy b a)
  have hrelIn : (fun a b => a ∈ adjacent g RelKind.TrustedBy Direction.Inbound b) =
      IsTrustedBy g := by
    funext a b
    exact propext (mem_adjacent_inbound g RelKind.TrustedBy b a)
  simp only [CreateDomainTrustListDelegate, applySkipLimit_zero]
  refine ⟨?_, ?_, hout.1.filter _, hin.1.filter _, by decide, by decide⟩
  · intro m
    rw [List.mem_filter, hout.2 m, hrelOut, Relation.transGen_swap]
    simp [and_comm]
  · intro m
    rw [List.mem_filter, hin.2 m, hrelIn]
    simp [and_comm]

/-- C14: when a group has an `AdminTo` relationship to a computer and a
principal that is not itself a group is a member of that group, directly or
through nested groups, the principal is in
`CreateInboundLocalGroupListDelegate(AdminTo)(computer)`; the list holds no
group, and everything in it holds `AdminTo` itself or through membership. -/
theorem C14_nested_member_is_inbound_admin (g : Graph) (computer grp p : Nat)
    (hAdmin : ∃ r ∈ g.relationships,
      r.kind = RelKind.AdminTo ∧ r.startID = grp ∧ r.endID = computer)
    (hMember : Relation.TransGen (IsMemberOf g) p grp)
    (hPrincipal : isGroup g p = false) :
    p ∈ CreateInboundLocalGroupListDelegate RelKind.AdminTo g computer 0 0 ∧
    (∀ n ∈ CreateInboundLocalGroupListDelegate RelKind.AdminTo g computer 0 0,
      isGroup g n = false ∧ HoldsThroughMembership g RelKind.AdminTo n computer) := by
  have hfuelBound : ∀ n, directMembers g n ⊆ g.relationships.map (fun r => r.startID) :=
    directMembers_subset_starts g
  have hholders : (adjacent g RelKind.AdminTo Direction.Inbound computer).dedup ⊆
      g.relationships.map (fun r => r.startID) := by
    intro m hm
    obtain ⟨r, hr, _, hs, _⟩ := (mem_adjacent_inbound g _ computer m).mp (List.mem_dedup.mp hm)
    exact List.mem_map.mpr ⟨r, hr, hs⟩
  have hlen := (List.subperm_of_subset (List.nodup_dedup _) hholders).length_le
  obtain ⟨_, r2, _, r4, r5⟩ := expandVia_spec (directMembers g)
    (g.relationships.map (fun r => r.startID)) hfuelBound (2 * g.relationships.length + 1)
    (adjacent g RelKind.AdminTo Direction.Inbound computer).dedup
    (adjacent g RelKind.AdminTo Direction.Inbound computer).dedup
    (List.nodup_dedup _) hholders (fun v hv => Or.inl hv)
    (by simp only [List.length_map] at hlen ⊢; omega)
  simp only [CreateInboundLocalGroupListDelegate, applySkipLimit_zero, List.mem_filter,
    Bool.not_eq_true']
  have hrel : (fun a b => a ∈ directMembers g b) = IsMemberOf g := by
    funext a b
    exact propext (mem_directMembers g b a)
  constructor
  · refine ⟨?_, hPrincipal⟩
    have hgrp : grp ∈ expandVia (directMembers g) (2 * g.relationships.length + 1)
        (adjacent g RelKind.AdminTo Direction.Inbound computer).dedup
        (adjacent g RelKind.AdminTo Direction.Inbound computer).dedup :=
      r2 (List.mem_dedup.mpr ((mem_adjacent_inbound g _ computer grp).mpr hAdmin))
    clear hPrincipal
    induction hMember using Relation.TransGen.head_induction_on with
    | base h => exact r4 grp hgrp ((mem_directMembers g grp _).mpr h)
    | ih h _ hc => exact r4 _ hc ((mem_directMembers g _ _).mpr h)
  · rintro n ⟨hn, hng⟩
    refine ⟨hng, ?_⟩
    rcases r5 n hn with h | ⟨f, hf, hreach⟩
    · exact ⟨n, (mem_adjacent_inbound g _ computer n).mp (List.mem_dedup.mp h), Or.inl rfl⟩
    · rw [hrel] at hreach
      exact ⟨f, (mem_adjacent_inbound g _ computer f).mp (List.mem_dedup.mp hf), Or.inr hreach⟩

/-- C14 on a chain user 1 ∈ group 2 ∈ group 3 -AdminTo-> computer 4: the
user is listed for the computer. -/
theorem C14_nested_member_is_inbound_admin_witness :
    1 ∈ CreateInboundLocalGroupListDelegate RelKind.AdminTo nestedAdminGraph 4 0 0 :=
  (C14_nested_member_is_inbound_admin nestedAdminGraph 4 3 1
    ⟨⟨3, 4, RelKind.AdminTo, false⟩, by decide, rfl, rfl, rfl⟩
    (Relation.TransGen.tail
      (Relation.TransGen.single ⟨⟨1, 2, RelKind.MemberOf, false⟩, by decide, rfl, rfl, rfl⟩)
      ⟨⟨2, 3, RelKind.MemberOf, false⟩, by decide, rfl, rfl, rfl⟩)
    (by decide)).1

end ad

namespace ad

/-- C15: the GPO candidate filters are functions of the node's kinds and
properties alone.  `SelectGPOContainerCandidateFilter` is true exactly on
nodes of kind OU or Domain, so false on the computer of the filter test and
on every node that is neither; `SelectGPOTierZeroCandidateFilter` is true on
a user (not also a group) whose system tags contain the Tier Zero tag, and
false on every group, tagged or not. -/
theorem C15_gpo_candidate_filters :
    (∀ n : graph.Node, SelectGPOContainerCandidateFilter n = true ↔
      graphschema.ad.OU ∈ n.Kinds ∨ graphschema.ad.Domain ∈ n.Kinds) ∧
    (∀ n : graph.Node, graphschema.ad.OU ∉ n.Kinds → graphschema.ad.Domain ∉ n.Kinds →
      SelectGPOContainerCandidateFilter n = false) ∧
    SelectGPOContainerCandidateFilter filterTestComputer = false ∧
    (∀ (n : graph.Node) (tags : String),
      n.Properties.Get graphschema.common.SystemTags = some (graph.PropertyValue.string tags) →
      strings.Contains tags graphschema.ad.AdminTierZero = true →
      graphschema.ad.User ∈ n.Kinds → graphschema.ad.Group ∉ n.Kinds →
      SelectGPOTierZeroCandidateFilter n = true) ∧
    (∀ n : graph.Node, graphschema.ad.Group ∈ n.Kinds →
      SelectGPOTierZeroCandidateFilter n = false) ∧
    SelectGPOTierZeroCandidateFilter filterTestUser = true ∧
    SelectGPOTierZeroCandidateFilter filterTestGroup = false ∧
    (∀ n m : graph.Node, n.Kinds = m.Kinds → n.Properties = m.Properties →
      SelectGPOContainerCandidateFilter n = SelectGPOContainerCandidateFilter m ∧
      SelectGPOTierZeroCandidateFilter n = SelectGPOTierZeroCandidateFilter m) := by
  have hcontainer : ∀ n : graph.Node, SelectGPOContainerCandidateFilter n = true ↔
      graphschema.ad.OU ∈ n.Kinds ∨ graphschema.ad.Domain ∈ n.Kinds := by
    intro n
    simp [SelectGPOContainerCandidateFilter, graph.Node.ContainsOneOf]
  refine ⟨hcontainer, ?_, by decide, ?_, ?_, by decide, by decide, ?_⟩
  · intro n h1 h2
    cases h : SelectGPOContainerCandidateFilter n
    · rfl
    · rcases (hcontainer n).mp h with h' | h'
      · exact absurd h' h1
      · exact absurd h' h2
  · intro n tags hget hcontains _ hgroup
    simp [SelectGPOTierZeroCandidateFilter, hget, graph.StringOf, hcontains,
      graph.Node.ContainsOneOf, hgroup]
  · intro n hgroup
    unfold SelectGPOTierZeroCandidateFilter
    split
    · rfl
    · simp [graph.Node.ContainsOneOf, hgroup]
  · intro n m hk hp
    simp [SelectGPOContainerCandidateFilter, SelectGPOTierZeroCandidateFilter,
      graph.Node.ContainsOneOf, hk, hp]

end ad

namespace agi

/-- The removal loop, started on any set: a node stays exactly when no node
of the list looped over has its identity and is not to be kept. -/
theorem foldl_remove (keep : graph.Node → Bool) (l : graph.NodeSet) :
    ∀ remaining : graph.NodeSet,
      l.foldl
        (fun remaining node =>
          if !keep node then graph.NodeSet.Remove remaining node.ID else remaining)
        remaining =
      remaining.filter (fun m => !l.any (fun node => !keep node && node.ID == m.ID)) := by
  induction l with
  | nil => intro remaining; simp
  | cons n l ih =>
    intro remaining
    rw [List.foldl_cons, ih]
    cases hkeep : keep n
    · simp only [Bool.not_false, if_true, graph.NodeSet.Remove, List.filter_filter,
        List.any_cons, hkeep, Bool.true_and]
      apply List.filter_congr
      intro m _
      by_cases hid : n.ID = m.ID
      · simp [hid]
      · have h1 : (n.ID == m.ID) = false := by simp [hid]
        have h2 : (m.ID != n.ID) = true := by
          simp only [bne_iff_ne, ne_eq]
          exact fun h => hid h.symm
        rw [h1, h2]
        simp
    · simp [hkeep]

/-- In a node set a node is met by the removal test only through itself. -/
theorem any_remove_eq (keep : graph.Node → Bool) (nodes : graph.NodeSet)
    (hmap : (nodes.map (fun n => n.ID)).Nodup) (m : graph.Node) (hm : m ∈ nodes) :
    (!nodes.any (fun node => !keep node && node.ID == m.ID)) = keep m := by
  cases hgood : keep m
  · simp only [Bool.not_eq_false', List.any_eq_true, Bool.and_eq_true, Bool.not_eq_true',
      beq_iff_eq]
    exact ⟨m, hm, hgood, rfl⟩
  · simp only [Bool.not_eq_true', List.any_eq_false, Bool.and_eq_true, beq_iff_eq, not_and]
    intro n hn hbad hid
    have := List.inj_on_of_nodup_map hmap hn hm hid
    subst this
    rw [hgood] at hbad
    exact absurd hbad (by simp)

/-- On a node set (no two nodes with one identity) the removal loop is the
filter on exact tag matches. -/
theorem removeInexactMatches_eq_filter (tagProperty assetGroupTag : String)
    (assetGroupNodes : graph.NodeSet) (hmap : (assetGroupNodes.map (fun n => n.ID)).Nodup) :
    removeInexactMatches tagProperty assetGroupTag assetGroupNodes =
      assetGroupNodes.filter (fun node =>
        (strings.Split (nodeTags tagProperty node) ' ').contains assetGroupTag) := by
  unfold removeInexactMatches
  rw [foldl_remove (fun node =>
    (strings.Split (nodeTags tagProperty node) ' ').contains assetGroupTag)]
  apply List.filter_congr
  intro m hm
  exact any_remove_eq _ assetGroupNodes hmap m hm

/-- C16: for every tag and every node set the store query yields,
`FetchAssetGroupNodes` returns exactly the nodes of that set whose tag
property, split on single spaces, has the tag as one of its elements, in
the order of the set. -/
theorem C16_exact_tag_matches_only (tx : Transaction) (assetGroupTag : String)
    (isSystemGroup : Bool) (assetGroupNodes : graph.NodeSet)
    (hquery : tx.FetchNodeSet (tagPropertyStr isSystemGroup) assetGroupTag =
      Except.ok assetGroupNodes)
    (hmap : (assetGroupNodes.map (fun n => n.ID)).Nodup) :
    FetchAssetGroupNodes tx assetGroupTag isSystemGroup =
      Except.ok (assetGroupNodes.filter (fun node =>
        decide (assetGroupTag ∈
          strings.Split (nodeTags (tagPropertyStr isSystemGroup) node) ' '))) := by
  unfold FetchAssetGroupNodes
  rw [hquery]
  simp only [removeInexactMatches_eq_filter _ _ _ hmap]
  congr 1
  apply List.filter_congr
  intro node _
  simp

/-- C16 on the sample nodes: all three contain `admin_tier_0` as a
substring, so the query yields all three; the node tagged
`admin_tier_0_extra` is removed and the two tagged exactly are kept. -/
theorem C16_exact_tag_matches_only_witness :
    (FetchAssetGroupNodes (scriptedTransaction sampleNodes) "admin_tier_0" true).map
      (fun nodes => nodes.map (fun n => n.ID)) = Except.ok [1, 3] := by
  rw [C16_exact_tag_matches_only (scriptedTransaction sampleNodes) "admin_tier_0" true
    sampleNodes rfl (by decide)]
  rfl

end agi

namespace agi

/-- The loop over the asset groups when no store call fails: one collection
per asset group, in order, and no error. -/
theorem collectAssetGroups_ok {σ : Type} (db : AgiData σ) (tx : Transaction) :
    ∀ (assetGroups : List AssetGroup) (s : σ),
      (∀ e ∈ (collectAssetGroups db tx assetGroups s).trace, e.failed = false) →
      (collectAssetGroups db tx assetGroups s).trace.filterMap Event.created =
        assetGroups.map (fun assetGroup =>
          (({ AssetGroupID := assetGroup.ID } : AssetGroupCollection),
            buildEntries db.GetNodeKindDisplayLabel (assetGroupNodesOf tx assetGroup))) ∧
      (collectAssetGroups db tx assetGroups s).result = none := by
  intro assetGroups
  induction assetGroups with
  | nil => intro s _; simp [collectAssetGroups]
  | cons assetGroup rest ih =>
    intro s hok
    unfold collectAssetGroups at hok ⊢
    split at hok
    · exact absurd (hok _ (List.mem_singleton_self _)) (by simp [Event.failed])
    · rename_i assetGroupNodes hfetch
      simp only [hfetch] at hok ⊢
      split at hok
      · exact absurd (hok _ (List.mem_cons_of_mem _ (List.mem_singleton_self _)))
          (by simp [Event.failed])
      · rename_i s2 hcreate
        simp only [hcreate]
        have hrest := ih s2 (fun e he =>
          hok e (List.mem_cons_of_mem _ (List.mem_cons_of_mem _ he)))
        simp only [List.filterMap_cons, Event.created, List.map_cons, hrest.1, hrest.2,
          and_self]
        simp [assetGroupNodesOf, hfetch]

/-- C18: the code at an asset group whose nodes include one without a string
`objectid`.  The slice of entries is made with one zero entry per node and
the offending node's slot is never set, so the entries handed to
`CreateAssetGroupCollection` keep a blank entry for it: in general the
entries are as many as the nodes, and on the sample nodes the collection
for tag `admin_tier_0` gets the entry of node 1 and a blank entry for
node 3, whose `objectid` is a number. -/
theorem C18_blank_entry_for_node_without_objectid :
    (∀ (label : graph.Node → String) (assetGroupNodes : graph.NodeSet),
      (buildEntries label assetGroupNodes).length = assetGroupNodes.length) ∧
    (∀ (label : graph.Node → String) (assetGroupNodes : graph.NodeSet),
      ∀ node ∈ assetGroupNodes,
        (∀ objectID, graph.StringOf (node.Properties.Get graphschema.common.ObjectID) ≠
          Except.ok objectID) →
        zeroEntry ∈ buildEntries label assetGroupNodes) ∧
    createdCollections (RunAssetGroupIsolationCollections
        (scriptedStore [⟨1, "admin_tier_0", true⟩]) (scriptedTransaction sampleNodes) ()) =
      [(⟨1⟩, [⟨"S-1-5-21-1", "Base",
          [("system_tags", graph.PropertyValue.string "admin_tier_0 owned"),
           ("objectid", graph.PropertyValue.string "S-1-5-21-1")]⟩, zeroEntry])] ∧
    (RunAssetGroupIsolationCollections
        (scriptedStore [⟨1, "admin_tier_0", true⟩])
        (scriptedTransaction sampleNodes) ()).result = none := by
  refine ⟨?_, ?_, by decide, by decide⟩
  · intro label assetGroupNodes
    simp [buildEntries]
  · intro label assetGroupNodes node hnode hbad
    simp only [buildEntries, List.mem_map]
    refine ⟨node, hnode, ?_⟩
    split
    · rfl
    · rename_i objectID h
      exact absurd h (hbad objectID)

end agi

namespace config

/-- C19: the code at every successful call.  Whatever signing key and
password are generated, the configuration returned has `neo4j.DriverName`
as its graph driver, which is not the PostgreSQL driver name, although the
comment on that line reads "Default to PG as the graph driver". -/
theorem C19_default_graph_driver_is_neo4j (jwtSigningKey generatedPassword : String) :
    graphDriverOf (NewDefaultConfiguration (Except.ok jwtSigningKey)
      (Except.ok generatedPassword)) = some neo4j.DriverName ∧
    neo4j.DriverName ≠ pg.DriverName := by
  exact ⟨rfl, by decide⟩

end config

namespace golang

/-- C20, as stated, fails: the sample module lists the package
`cmd/plugin/hello`, whose name is `main`, and no `go build` is run in its
directory, while the run returns nil. -/
theorem C20_main_package_in_plugin_dir_not_built :
    (⟨"main", "/work/cmd/plugin/hello", "example.com/cmd/plugin/hello"⟩ : GoPackage) ∈
      samplePackages ∧
    "/work/cmd/plugin/hello" ∉
      (BuildMainPackages (scriptedToolchain samplePackages []) "/work" "/work").commands.map
        (fun c => c.dir) ∧
    (BuildMainPackages (scriptedToolchain samplePackages []) "/work" "/work").result = none := by
  decide

theorem errorsJoin_eq_none (errs : List String) : errorsJoin errs = none ↔ errs = [] := by
  unfold errorsJoin
  cases errs <;> simp

/-- C20, amended: when a version is found (in the git tags or in the
environment variable) and the package listing succeeds, `BuildMainPackages`
runs `go build` in the directory of every listed package whose name is
`main` and whose directory does not contain `plugin`, once each and nowhere
else, and returns nil if and only if every one of those builds
succeeded. -/
theorem C20_builds_main_packages_outside_plugin_dirs (w : Toolchain)
    (workRoot modPath : String) (version : Version) (packages : List GoPackage)
    (hversion : resolveVersion w workRoot = Except.ok version)
    (hlist : w.moduleListPackages modPath = Except.ok packages) :
    (BuildMainPackages w workRoot modPath).commands =
      (packages.filter (fun pkg =>
        pkg.Name == "main" && !strings.Contains pkg.Dir "plugin")).map (fun pkg =>
          { command := "go"
            args := buildArgs (w.Join workRoot "dist" ++ w.Separator) version
            dir := pkg.Dir }) ∧
    ((BuildMainPackages w workRoot modPath).result = none ↔
      ∀ pkg ∈ packages, pkg.Name = "main" → strings.Contains pkg.Dir "plugin" = false →
        w.Run "go" (buildArgs (w.Join workRoot "dist" ++ w.Separator) version) pkg.Dir =
          none) := by
  unfold BuildMainPackages
  simp only [hversion, buildModuleMainPackages, hlist]
  refine ⟨rfl, ?_⟩
  simp only [Option.map_eq_none', errorsJoin_eq_none, List.filterMap_eq_nil_iff,
    List.mem_filter, isBuildTarget, Bool.and_eq_true, beq_iff_eq, Bool.not_eq_true',
    Option.map_eq_none', and_imp]

/-- The amended C20 on the sample module with a failing API build: one
build is run, in `cmd/api`, and the result is an error. -/
theorem C20_builds_main_packages_outside_plugin_dirs_witness :
    (BuildMainPackages (scriptedToolchain samplePackages ["/work/cmd/api"]) "/work"
      "/work").commands.map (fun c => c.dir) = ["/work/cmd/api"] := by
  rw [(C20_builds_main_packages_outside_plugin_dirs
    (scriptedToolchain samplePackages ["/work/cmd/api"]) "/work" "/work"
    ⟨1, 2, 3, "", "v1.2.3"⟩ samplePackages rfl rfl).1]
  decide

end golang

namespace datapipe

theorem returnedError_mem_passesInvoked {σ : Type} (r : Run σ) (p : Pass)
    (h : returnedError r p) : p ∈ passesInvoked r :=
  List.mem_filterMap.mpr ⟨Event.pass p true, h, rfl⟩

/-- C23: take any run in which the lookup of the ADCS or of the NTLM
post-processing feature flag fails.  `ad.Post` is not called: the store the
run leaves is the one obtained by applying `azure.Post` directly to the
store the tagging pass left, then the asset-group-isolation pass (exactly
when tiering is disabled) and the data-quality pass, and the passes called
are the pipeline without the AD pass.  No AD failure is counted: the run
returns nil exactly when none of those three passes returns an error, and it
never returns `ErrAnalysisFailed`. -/
theorem C23_flag_lookup_failure_skips_ad {σ : Type} (env : Env σ)
    (s0 s1 s2 s3 s4 s6 s7 s8 : σ) (e1 e2 e3 : Option String) (errs : List String)
    (e6 e7 e8 : Option String)
    (h1 : env.FixWellKnownNodeTypes s0 = (s1, e1))
    (h2 : env.RunDomainAssociations s1 = (s2, e2))
    (h3 : env.LinkWellKnownNodes s2 = (s3, e3))
    (h4 : env.TagAssetGroupsAndTierZero s3 = (s4, errs))
    (hlookup : (∃ err, env.GetFlagByKey FlagKey.FeatureAdcs s4 = Except.error err) ∨
      (∃ err, env.GetFlagByKey FlagKey.FeatureNTLMPostProcessing s4 = Except.error err))
    (h6 : env.AzurePost s4 = (s6, e6))
    (h7 : (if env.GetTieringEnabled s0 then (s6, none)
      else env.RunAssetGroupIsolationCollections s6) = (s7, e7))
    (h8 : env.SaveDataQuality s7 = (s8, e8)) :
    (RunAnalysisOperations env s0).state = s8 ∧
    Pass.ADPost ∉ passesInvoked (RunAnalysisOperations env s0) ∧
    passesInvoked (RunAnalysisOperations env s0) =
      [Pass.FixWellKnownNodeTypes, Pass.RunDomainAssociations, Pass.LinkWellKnownNodes,
        Pass.TagAssetGroupsAndTierZero, Pass.AzurePost] ++
      (if env.GetTieringEnabled s0 then [] else [Pass.RunAssetGroupIsolationCollections]) ++
      [Pass.SaveDataQuality] ∧
    ((RunAnalysisOperations env s0).result = none ↔ (e6 = none ∧ e7 = none ∧ e8 = none)) ∧
    (RunAnalysisOperations env s0).result ≠ some AnalysisError.ErrAnalysisFailed := by
  obtain ⟨hs, hflag, hpasses, _⟩ := adBlock_of_failed_lookup env s4 hlookup
  have hagi : agiAnswer env s0 s6 = (s7, e7) := h7
  have hblock := agiBlock_answer env s0 s6
  rw [hagi] at hblock
  have hstate : (RunAnalysisOperations env s0).state = s8 := by
    simp only [RunAnalysisOperations, h1, h2, h3, h4, hs, h6, hblock.1, h8]
  have hres : (RunAnalysisOperations env s0).result =
      analysisStatus false e6.isSome e7.isSome e8.isSome := by
    simp only [RunAnalysisOperations, h1, h2, h3, h4, hs, hflag, h6, hblock.1, hblock.2, h8]
  have hinvoked : passesInvoked (RunAnalysisOperations env s0) =
      [Pass.FixWellKnownNodeTypes, Pass.RunDomainAssociations, Pass.LinkWellKnownNodes,
        Pass.TagAssetGroupsAndTierZero, Pass.AzurePost] ++
      (if env.GetTieringEnabled s0 then [] else [Pass.RunAssetGroupIsolationCollections]) ++
      [Pass.SaveDataQuality] := by
    simp only [passesInvoked, RunAnalysisOperations, h1, h2, h3, h4, List.filterMap_append,
      hpasses, agiBlock_passes]
    simp [Event.calledPass]
  refine ⟨hstate, ?_, hinvoked, ?_, ?_⟩
  · rw [hinvoked]
    cases env.GetTieringEnabled s0 <;> decide
  · rw [hres]
    cases e6 <;> cases e7 <;> cases e8 <;> simp [analysisStatus]
  · rw [hres]
    cases e6 <;> cases e7 <;> cases e8 <;> simp [analysisStatus]

/-- C23 at a run with tiering disabled in which the ADCS lookup fails and
every pass returns none (`ad.Post` would return an error), over the store
that logs the passes applied to it: the store left is the pipeline without
the AD pass, and the result is nil. -/
theorem C23_flag_lookup_failure_skips_ad_witness :
    (RunAnalysisOperations (recordingEnv false none none none []
        (Except.error "no flag") (Except.ok ⟨true⟩) (some "ad") none none none) []).state =
      [Pass.FixWellKnownNodeTypes, Pass.RunDomainAssociations, Pass.LinkWellKnownNodes,
        Pass.TagAssetGroupsAndTierZero, Pass.AzurePost,
        Pass.RunAssetGroupIsolationCollections, Pass.SaveDataQuality] ∧
    (RunAnalysisOperations (recordingEnv false none none none []
        (Except.error "no flag") (Except.ok ⟨true⟩) (some "ad") none none none) []).result =
      none :=
  have h := C23_flag_lookup_failure_skips_ad (recordingEnv false none none none []
      (Except.error "no flag") (Except.ok ⟨true⟩) (some "ad") none none none) []
    [Pass.FixWellKnownNodeTypes]
    [Pass.FixWellKnownNodeTypes, Pass.RunDomainAssociations]
    [Pass.FixWellKnownNodeTypes, Pass.RunDomainAssociations, Pass.LinkWellKnownNodes]
    [Pass.FixWellKnownNodeTypes, Pass.RunDomainAssociations, Pass.LinkWellKnownNodes,
      Pass.TagAssetGroupsAndTierZero]
    [Pass.FixWellKnownNodeTypes, Pass.RunDomainAssociations, Pass.LinkWellKnownNodes,
      Pass.TagAssetGroupsAndTierZero, Pass.AzurePost]
    [Pass.FixWellKnownNodeTypes, Pass.RunDomainAssociations, Pass.LinkWellKnownNodes,
      Pass.TagAssetGroupsAndTierZero, Pass.AzurePost, Pass.RunAssetGroupIsolationCollections]
    [Pass.FixWellKnownNodeTypes, Pass.RunDomainAssociations, Pass.LinkWellKnownNodes,
      Pass.TagAssetGroupsAndTierZero, Pass.AzurePost, Pass.RunAssetGroupIsolationCollections,
      Pass.SaveDataQuality]
    none none none [] none none none
    rfl rfl rfl rfl (Or.inl ⟨"no flag", rfl⟩) rfl rfl rfl
  ⟨h.1, h.2.2.2.1.mpr ⟨rfl, rfl, rfl⟩⟩

end datapipe

namespace agi

/-- The loop over the asset groups, up to the first one for which a store
call fails: when for every asset group of `pre` the nodes are fetched and
the collection is accepted by the store as the collections before it left
it, the loop over `pre ++ rest` creates the collections of `pre`, in order,
and goes on with `rest` from the store they leave. -/
theorem collectAssetGroups_prefix {σ : Type} (db : AgiData σ) (tx : Transaction)
    (rest : List AssetGroup) :
    ∀ (pre : List AssetGroup) (s : σ),
      (∀ a ∈ pre, ∃ nodes, FetchAssetGroupNodes tx a.Tag a.SystemGroup = Except.ok nodes) →
      (∀ i : Fin pre.length,
        (db.CreateAssetGroupCollection { AssetGroupID := (pre.get i).ID }
          (entriesOf db tx (pre.get i)) (storeAfter db tx (pre.take i) s)).2 = none) →
      (collectAssetGroups db tx (pre ++ rest) s).state =
        (collectAssetGroups db tx rest (storeAfter db tx pre s)).state ∧
      (collectAssetGroups db tx (pre ++ rest) s).result =
        (collectAssetGroups db tx rest (storeAfter db tx pre s)).result ∧
      createdCollections (collectAssetGroups db tx (pre ++ rest) s) =
        pre.map (fun a => (({ AssetGroupID := a.ID } : AssetGroupCollection),
          entriesOf db tx a)) ++
        createdCollections (collectAssetGroups db tx rest (storeAfter db tx pre s)) := by
  intro pre
  induction pre with
  | nil => intro s _ _; simp [storeAfter]
  | cons a pre ih =>
    intro s hfetch hcreate
    obtain ⟨nodes, hnodes⟩ := hfetch a (List.mem_cons_self _ _)
    have hentries : entriesOf db tx a = buildEntries db.GetNodeKindDisplayLabel nodes := by
      simp [entriesOf, assetGroupNodesOf, hnodes]
    have h0 := hcreate ⟨0, by simp⟩
    simp only [List.get_eq_getElem, List.getElem_cons_zero, List.take_zero, storeAfter,
      hentries] at h0
    have hih := ih
      (db.CreateAssetGroupCollection { AssetGroupID := a.ID }
        (buildEntries db.GetNodeKindDisplayLabel nodes) s).1
      (fun b hb => hfetch b (List.mem_cons_of_mem _ hb))
      (fun i => by
        have := hcreate ⟨i.1 + 1, by simp⟩
        simpa [storeAfter, hentries] using this)
    rw [List.cons_append, collectAssetGroups]
    simp only [hnodes]
    cases hc : db.CreateAssetGroupCollection { AssetGroupID := a.ID }
        (buildEntries db.GetNodeKindDisplayLabel nodes) s with
    | mk s2 e =>
      rw [hc] at h0 hih
      simp only at h0
      subst h0
      simp only [createdCollections, List.filterMap_cons, Event.created, storeAfter, hentries,
        hc, List.map_cons, List.cons_append]
      simp only [createdCollections] at hih
      exact ⟨hih.1, hih.2.1, by rw [hih.2.2]⟩

/-- C24: `RunAssetGroupIsolationCollections` returns the first store error
and stops.  When `GetAllAssetGroups` fails the run returns that error, opens
no write transaction, creates no collection and leaves the store as it was.
Otherwise let `g` be the first asset group for which a store call fails: for
every asset group before it the nodes are fetched and the store accepts the
collection.  If fetching the nodes of `g` fails, the run returns that error
and the collections it created are exactly those of the asset groups before
`g`.  If the store rejects the collection of `g`, the run returns that
error, has asked for the collections of the asset groups up to `g` and for
no other, and leaves the store as the rejected call left it.  In both cases
no collection is created for an asset group after `g`. -/
theorem C24_first_store_error_stops_run {σ : Type} (db : AgiData σ) (graphDB : Transaction)
    (s : σ) :
    (∀ err, db.GetAllAssetGroups s = Except.error err →
      (RunAssetGroupIsolationCollections db graphDB s).result = some err ∧
      Event.writeTransaction ∉ (RunAssetGroupIsolationCollections db graphDB s).trace ∧
      createdCollections (RunAssetGroupIsolationCollections db graphDB s) = [] ∧
      (RunAssetGroupIsolationCollections db graphDB s).state = s) ∧
    (∀ (pre : List AssetGroup) (g : AssetGroup) (post : List AssetGroup) (err : String),
      db.GetAllAssetGroups s = Except.ok (pre ++ g :: post) →
      (∀ a ∈ pre, ∃ nodes,
        FetchAssetGroupNodes graphDB a.Tag a.SystemGroup = Except.ok nodes) →
      (∀ i : Fin pre.length,
        (db.CreateAssetGroupCollection { AssetGroupID := (pre.get i).ID }
          (entriesOf db graphDB (pre.get i))
          (storeAfter db graphDB (pre.take i) s)).2 = none) →
      (FetchAssetGroupNodes graphDB g.Tag g.SystemGroup = Except.error err →
        (RunAssetGroupIsolationCollections db graphDB s).result = some err ∧
        createdCollections (RunAssetGroupIsolationCollections db graphDB s) =
          pre.map (fun a => (({ AssetGroupID := a.ID } : AssetGroupCollection),
            entriesOf db graphDB a)) ∧
        (RunAssetGroupIsolationCollections db graphDB s).state =
          storeAfter db graphDB pre s) ∧
      (∀ nodes s',
        FetchAssetGroupNodes graphDB g.Tag g.SystemGroup = Except.ok nodes →
        db.CreateAssetGroupCollection { AssetGroupID := g.ID }
          (buildEntries db.GetNodeKindDisplayLabel nodes)
          (storeAfter db graphDB pre s) = (s', some err) →
        (RunAssetGroupIsolationCollections db graphDB s).result = some err ∧
        createdCollections (RunAssetGroupIsolationCollections db graphDB s) =
          (pre ++ [g]).map (fun a => (({ AssetGroupID := a.ID } : AssetGroupCollection),
            entriesOf db graphDB a)) ∧
        (RunAssetGroupIsolationCollections db graphDB s).state = s')) := by
  constructor
  · intro err herr
    simp [RunAssetGroupIsolationCollections, herr, createdCollections, Event.created]
  · intro pre g post err hgroups hfetch hcreate
    obtain ⟨hstate, hresult, hcreated⟩ :=
      collectAssetGroups_prefix db graphDB (g :: post) pre s hfetch hcreate
    simp only [createdCollections] at hcreated
    constructor
    · intro hg
      simp only [RunAssetGroupIsolationCollections, hgroups, createdCollections,
        List.filterMap_cons, Event.created, hstate, hresult, hcreated]
      rw [collectAssetGroups]
      simp [hg, Event.created]
    · intro nodes s' hg hreject
      simp only [RunAssetGroupIsolationCollections, hgroups, createdCollections,
        List.filterMap_cons, Event.created, hstate, hresult, hcreated]
      rw [collectAssetGroups]
      simp [hg, hreject, Event.created, entriesOf, assetGroupNodesOf]

/-- C24 at two runs over three asset groups.  In the first the store rejects
the collection of the second asset group: the run returns that error, one
collection has been accepted, and collections were asked for the first two
asset groups only.  In the second the nodes of the second asset group cannot
be fetched: the run returns that error and the only collection is that of
the first asset group. -/
theorem C24_first_store_error_stops_run_witness :
    ((RunAssetGroupIsolationCollections
        (rejectingStore [⟨7, "owned", true⟩, ⟨8, "admin_tier_0", true⟩, ⟨9, "owned", true⟩] 8)
        (scriptedTransaction sampleNodes) 0).result = some "collection rejected" ∧
      (createdCollections (RunAssetGroupIsolationCollections
        (rejectingStore [⟨7, "owned", true⟩, ⟨8, "admin_tier_0", true⟩, ⟨9, "owned", true⟩] 8)
        (scriptedTransaction sampleNodes) 0)).map (fun c => c.1.AssetGroupID) = [7, 8] ∧
      (RunAssetGroupIsolationCollections
        (rejectingStore [⟨7, "owned", true⟩, ⟨8, "admin_tier_0", true⟩, ⟨9, "owned", true⟩] 8)
        (scriptedTransaction sampleNodes) 0).state = 1) ∧
    ((RunAssetGroupIsolationCollections
        (rejectingStore [⟨7, "owned", true⟩, ⟨8, "hidden", true⟩, ⟨9, "owned", true⟩] 0)
        (failingTransaction sampleNodes "hidden") 0).result = some "query failed" ∧
      (createdCollections (RunAssetGroupIsolationCollections
        (rejectingStore [⟨7, "owned", true⟩, ⟨8, "hidden", true⟩, ⟨9, "owned", true⟩] 0)
        (failingTransaction sampleNodes "hidden") 0)).map (fun c => c.1.AssetGroupID) = [7]) :=
  have hreject := ((C24_first_store_error_stops_run
      (rejectingStore [⟨7, "owned", true⟩, ⟨8, "admin_tier_0", true⟩, ⟨9, "owned", true⟩] 8)
      (scriptedTransaction sampleNodes) 0).2
    [⟨7, "owned", true⟩] ⟨8, "admin_tier_0", true⟩ [⟨9, "owned", true⟩] "collection rejected"
    rfl (fun a ha => by simp only [List.mem_singleton] at ha; subst ha; exact ⟨_, rfl⟩)
    (by decide)).2 _ 1 rfl rfl
  have hfetch := ((C24_first_store_error_stops_run
      (rejectingStore [⟨7, "owned", true⟩, ⟨8, "hidden", true⟩, ⟨9, "owned", true⟩] 0)
      (failingTransaction sampleNodes "hidden") 0).2
    [⟨7, "owned", true⟩] ⟨8, "hidden", true⟩ [⟨9, "owned", true⟩] "query failed"
    rfl (fun a ha => by simp only [List.mem_singleton] at ha; subst ha; exact ⟨_, rfl⟩)
    (by decide)).1 rfl
  ⟨⟨hreject.1, by rw [hreject.2.1]; rfl, hreject.2.2⟩, ⟨hfetch.1, by rw [hfetch.2.1]; rfl⟩⟩

end agi

namespace lab

/-- C21: for every set `s` of the heap and every element `x`: after
`s.Add(x)`, `s.Has(x)` is true; `s.Clone()` is another set with exactly the
members of `s`, and cloning leaves `s` as it was; deleting `x` from the
clone makes `Has(x)` false on the clone and changes no membership of `s`, so
after `s.Add(x)`, a clone and a deletion on the clone, `s.Has(x)` is still
true. -/
theorem C21_set_clone_is_independent {α : Type} [DecidableEq α] (h : Heap α) (s : Set)
    (x : α) (hs : s < h.next) :
    Set.Has s x (Set.Add s x h) = true ∧
    (∀ y, Set.Has (Set.Clone s h).1 y (Set.Clone s h).2 = Set.Has s y h) ∧
    (∀ y, Set.Has s y (Set.Clone s h).2 = Set.Has s y h) ∧
    (Set.Clone s h).1 ≠ s ∧
    Set.Has (Set.Clone s h).1 x
      (Set.Delete (Set.Clone s h).1 x (Set.Clone s h).2) = false ∧
    (∀ y, Set.Has s y
      (Set.Delete (Set.Clone s h).1 x (Set.Clone s h).2) = Set.Has s y h) ∧
    Set.Has s x
      (Set.Delete (Set.Clone s (Set.Add s x h)).1 x (Set.Clone s (Set.Add s x h)).2) = true ∧
    Set.Has (Set.Clone s (Set.Add s x h)).1 x
      (Set.Delete (Set.Clone s (Set.Add s x h)).1 x (Set.Clone s (Set.Add s x h)).2) =
        false := by
  have hne : s ≠ h.next := Nat.ne_of_lt hs
  have hne2 : ¬ h.next = s := fun e => hne e.symm
  refine ⟨?_, ?_, ?_, ?_, ?_, ?_, ?_, ?_⟩
  · by_cases hx : x ∈ h.table s <;> simp [Set.Has, Set.Add, hx]
  · intro y
    simp [Set.Has, Set.Clone]
  · intro y
    simp [Set.Has, Set.Clone, hne]
  · exact hne2
  · simp [Set.Has, Set.Delete, Set.Clone]
  · intro y
    simp [Set.Has, Set.Delete, Set.Clone, hne]
  · by_cases hx : x ∈ h.table s <;> simp [Set.Has, Set.Delete, Set.Clone, Set.Add, hne, hx]
  · simp [Set.Has, Set.Delete, Set.Clone, Set.Add]

/-- C21 on the steps of `TestSet`: a set is made, "foo" is added, the set is
cloned and "foo" is deleted from the clone. -/
theorem C21_set_clone_is_independent_witness :
    Set.Has (make (Heap.empty : Heap String)).1 "foo"
      (Set.Add (make (Heap.empty : Heap String)).1 "foo"
        (make (Heap.empty : Heap String)).2) = true ∧
    Set.Has (make (Heap.empty : Heap String)).1 "foo"
      (Set.Delete
        (Set.Clone (make (Heap.empty : Heap String)).1
          (Set.Add (make (Heap.empty : Heap String)).1 "foo"
            (make (Heap.empty : Heap String)).2)).1 "foo"
        (Set.Clone (make (Heap.empty : Heap String)).1
          (Set.Add (make (Heap.empty : Heap String)).1 "foo"
            (make (Heap.empty : Heap String)).2)).2) = true :=
  ⟨(C21_set_clone_is_independent (make (Heap.empty : Heap String)).2
      (make (Heap.empty : Heap String)).1 "foo" (by decide)).1,
    (C21_set_clone_is_independent (make (Heap.empty : Heap String)).2
      (make (Heap.empty : Heap String)).1 "foo" (by decide)).2.2.2.2.2.2.1⟩

end lab

namespace model

theorem Permission.equals_iff_key (p o : Permission) : p.Equals o = true ↔ p.key = o.key := by
  simp [Permission.Equals, Permission.key, Prod.ext_iff]

theorem foldl_found (permission : Permission) (others : Permissions) :
    ∀ found : Bool,
      others.foldl (fun found otherPermission =>
        if permission.Equals otherPermission then true else found) found =
      (found || others.any (fun o => permission.Equals o)) := by
  induction others with
  | nil => intro found; simp
  | cons o rest ih =>
    intro found
    rw [List.foldl_cons, ih]
    cases h : permission.Equals o <;> simp [h]

theorem foundIn_iff (permission : Permission) (others : Permissions) :
    foundIn permission others = true ↔ permission.key ∈ others.map Permission.key := by
  unfold foundIn
  rw [foldl_found]
  simp only [Bool.false_or, List.any_eq_true, List.mem_map, Permission.equals_iff_key]
  constructor
  · rintro ⟨o, ho, hk⟩
    exact ⟨o, ho, hk.symm⟩
  · rintro ⟨o, ho, hk⟩
    exact ⟨o, ho, hk.symm⟩

theorem allFound_iff (s others : Permissions) :
    allFound s others = true ↔ s.map Permission.key ⊆ others.map Permission.key := by
  induction s with
  | nil => simp [allFound]
  | cons p rest ih =>
    unfold allFound
    by_cases hf : foundIn p others = true
    · simp only [hf, Bool.not_true, Bool.false_eq_true, if_false, ih, List.map_cons,
        List.cons_subset]
      exact ⟨fun h => ⟨(foundIn_iff p others).mp hf, h⟩, fun h => h.2⟩
    · have hf2 : foundIn p others = false := by simpa using hf
      simp only [hf2, Bool.not_false, if_true, Bool.false_eq_true, List.map_cons,
        List.cons_subset, false_iff, not_and]
      intro hk
      exact absurd ((foundIn_iff p others).mpr hk) hf

/-- What `Permissions.Equals` decides: equal lengths, and every
(Authority, Name) pair of the receiver occurs in the argument. -/
theorem Permissions.equals_iff_subset (s others : Permissions) :
    Permissions.Equals s others = true ↔
      s.length = others.length ∧ s.map Permission.key ⊆ others.map Permission.key := by
  unfold Permissions.Equals
  by_cases hl : s.length = others.length
  · simp [hl, allFound_iff]
  · simp [hl]

/-- C25: the code on two lists of equal length, one of which repeats a
permission.  With `a` = [read, read] and `b` = [read, write], every
permission of `a` is found in `b`, so `a.Equals(b)` is true, while `write`
is not found in `a`, so `b.Equals(a)` is false.  On lists without repeated
(Authority, Name) pairs the comparison is symmetric. -/
theorem C25_equals_asymmetric_on_repeated_permission :
    Permissions.Equals
      [NewPermission "app" "read", NewPermission "app" "read"]
      [NewPermission "app" "read", NewPermission "app" "write"] = true ∧
    Permissions.Equals
      [NewPermission "app" "read", NewPermission "app" "write"]
      [NewPermission "app" "read", NewPermission "app" "read"] = false ∧
    (∀ a b : Permissions, (a.map Permission.key).Nodup → (b.map Permission.key).Nodup →
      Permissions.Equals a b = Permissions.Equals b a) := by
  refine ⟨by decide, by decide, ?_⟩
  intro a b ha hb
  rw [Bool.eq_iff_iff, Permissions.equals_iff_subset, Permissions.equals_iff_subset]
  constructor
  · rintro ⟨hl, hsub⟩
    have hperm := (List.subperm_of_subset ha hsub).perm_of_length_le (by simp [hl])
    exact ⟨hl.symm, hperm.symm.subset⟩
  · rintro ⟨hl, hsub⟩
    have hperm := (List.subperm_of_subset hb hsub).perm_of_length_le (by simp [hl])
    exact ⟨hl.symm, hperm.symm.subset⟩

/-- The comparison reads only the (Authority, Name) pairs of its two
lists. -/
theorem Permissions.Equals_congr (a b c d : Permissions)
    (hac : c.map Permission.key = a.map Permission.key)
    (hbd : d.map Permission.key = b.map Permission.key) :
    Permissions.Equals c d = Permissions.Equals a b := by
  have hl1 : c.length = a.length := by simpa using congrArg List.length hac
  have hl2 : d.length = b.length := by simpa using congrArg List.length hbd
  rw [Bool.eq_iff_iff, Permissions.equals_iff_subset, Permissions.equals_iff_subset, hac, hbd, hl1, hl2]

/-- C26: when no two permissions of `a` have the same (Authority, Name)
pair, `a.Equals(b)` is true exactly when `a` and `b` have the same length
and the same set of (Authority, Name) pairs; lists with the same pairs in
the same places but other serial fields, and reorderings of the two lists,
compare the same way. -/
theorem C26_equals_same_length_same_pairs (a b : Permissions)
    (hdistinct : (a.map Permission.key).Nodup) :
    (Permissions.Equals a b = true ↔
      a.length = b.length ∧
        ∀ k, k ∈ a.map Permission.key ↔ k ∈ b.map Permission.key) ∧
    (∀ c d : Permissions, c.map Permission.key = a.map Permission.key →
      d.map Permission.key = b.map Permission.key →
      Permissions.Equals c d = Permissions.Equals a b) ∧
    (∀ c d : Permissions, c.Perm a → d.Perm b →
      Permissions.Equals c d = Permissions.Equals a b) := by
  refine ⟨?_, fun c d => Permissions.Equals_congr a b c d, ?_⟩
  · rw [Permissions.equals_iff_subset]
    constructor
    · rintro ⟨hl, hsub⟩
      have hperm := (List.subperm_of_subset hdistinct hsub).perm_of_length_le (by simp [hl])
      exact ⟨hl, fun k => hperm.mem_iff⟩
    · rintro ⟨hl, hmem⟩
      exact ⟨hl, fun k hk => (hmem k).mp hk⟩
  · intro c d hc hd
    rw [Bool.eq_iff_iff, Permissions.equals_iff_subset, Permissions.equals_iff_subset, hc.length_eq,
      hd.length_eq]
    have h1 := hc.map Permission.key
    have h2 := hd.map Permission.key
    constructor
    · rintro ⟨hl, hsub⟩
      exact ⟨hl, fun k hk => h2.subset (hsub (h1.symm.subset hk))⟩
    · rintro ⟨hl, hsub⟩
      exact ⟨hl, fun k hk => h2.symm.subset (hsub (h1.subset hk))⟩

/-- C26 on two lists that hold the same two permissions in opposite order
and with different serial fields: they compare equal. -/
theorem C26_equals_same_length_same_pairs_witness :
    Permissions.Equals
      [⟨"app", "read", ⟨1, 10, 10, none⟩⟩, ⟨"app", "write", ⟨2, 10, 10, none⟩⟩]
      [⟨"app", "write", ⟨7, 20, 30, some 40⟩⟩, ⟨"app", "read", ⟨8, 20, 30, none⟩⟩] =
    Permissions.Equals
      [NewPermission "app" "read", NewPermission "app" "write"]
      [NewPermission "app" "write", NewPermission "app" "read"] :=
  (C26_equals_same_length_same_pairs
    [NewPermission "app" "read", NewPermission "app" "write"]
    [NewPermission "app" "write", NewPermission "app" "read"] (by decide)).2.1 _ _
    (by decide) (by decide)

end model
